import Mathlib

/-!
# whdd, `cui/sliding_window_renderer.c`

A shallow embedding of the sliding-window renderer: the single-producer /
single-consumer ring buffer of block reports, the statistics accumulated by
the render thread, and the speed / ETA estimate computed by `HandleReport`.

Conventions of the embedding.

* `uint64_t` values are natural numbers; every arithmetic result the C code
  stores in a `uint64_t` is reduced modulo `2^64` (`u64`, `u64_sub`).
* A `blk_report_t *` is the index of the slot inside `priv->reports`.
* `clock_gettime` is an input of `HandleReport`: `none` is a failed call
  (nonzero return value), `some t` a successful one that stored `t`.
* ncurses windows are not part of the state; the calls that only paint
  (`print_vis`, `wprintw`, `wnoutrefresh`, `doupdate`, ...) are omitted.
  The window pointers live in `SlidingWindow_windows`, and `Open` / `Close`
  are embedded as traces of their effects on windows and on the render thread.
* A run that reaches an `assert` failure, an integer division by zero or a
  signed overflow ends in `Except.error`.
-/

namespace Whdd

/-! ## Machine integers -/

/-- Reduction of an arithmetic result to `uint64_t`. -/
def u64 (x : Nat) : Nat := x % 2 ^ 64

/-- Subtraction `a - b` carried out in `uint64_t` (wraps below zero). -/
def u64_sub (a b : Nat) : Nat := Int.toNat (((a : Int) - (b : Int)) % 2 ^ 64)

/-- Conversion of a `uint64_t` value to `int` (32 bits, two's complement), as
done by the `return` of `get_queue_length`. -/
def u64_to_int (x : Nat) : Int :=
  if x % 2 ^ 32 < 2 ^ 31 then ((x % 2 ^ 32 : Nat) : Int)
  else ((x % 2 ^ 32 : Nat) : Int) - 2 ^ 32

/-- Ways in which a run of the C code stops without returning. -/
inductive Fault where
  | assert_failed
  | div_by_zero
  | signed_overflow
  deriving DecidableEq, Repr

/-! ## Data model -/

/-- The `struct timespec` of the C library: `time_t tv_sec; long tv_nsec`. -/
structure timespec where
  tv_sec : Int
  tv_nsec : Int
  deriving DecidableEq, Repr

/-- Modelled from the spec: `DC_BlockReport` is declared in `procedure.h`,
which is not among the sources. The spec gives it as
`{ lba: unsigned 64-bit, status: enum{OK, error-kind-1..5}, access_time: unsigned integer }`;
the status enumeration is `Fin 6` with `0` for OK, matching the six entries of
`error_stats_accum` ("0th is unused, the rest are as in DC_BlockStatus enum"). -/
structure DC_BlockReport where
  lba : Nat
  blk_status : Fin 6
  blk_access_time : Nat
  deriving DecidableEq, Repr

/-- The queue entry `blk_report_t`. -/
structure blk_report_t where
  seqno : Nat
  report : DC_BlockReport
  deriving DecidableEq, Repr

/-- Number of slots of the ring buffer:
`sizeof(priv->reports) / sizeof(priv->reports[0])` for `reports[100*1000]`. -/
def REPORTS_LEN : Nat := 100 * 1000

/-- The renderer's private state `SlidingWindow`, without the window handles
and the thread handle. Arrays are functions of the index. -/
structure SlidingWindow where
  start_time : timespec
  access_time_stats_accum : Nat → Nat
  error_stats_accum : Nat → Nat
  avg_processing_speed : Nat
  eta_time : Nat
  cur_lba : Nat
  order_hangup : Int
  reports : Nat → blk_report_t
  next_report_seqno_write : Nat
  next_report_seqno_read : Nat

/-- Modelled from the spec: the device descriptor (`actctx->dev`), declared in
a header that is not among the sources; only `capacity` (bytes) is read by the
functions embedded here. -/
structure DC_Dev where
  capacity : Nat
  deriving DecidableEq, Repr

/-- Modelled from the spec: the progress counter (`actctx->progress`). -/
structure DC_Progress where
  num : Nat
  deriving DecidableEq, Repr

/-- Modelled from the spec: the procedure context `DC_ProcedureCtx`, declared
in `procedure.h`, with the fields the renderer reads. -/
structure DC_ProcedureCtx where
  dev : DC_Dev
  blk_size : Int
  progress : DC_Progress
  report : DC_BlockReport
  interrupt : Int
  deriving DecidableEq, Repr

/-- Modelled from the spec: one row of the latency table `bs_vis` of `vis.h`
(not among the sources); only the threshold `access_time` is read here. -/
structure bs_vis_t where
  access_time : Nat
  deriving DecidableEq, Repr

/-- Array store `a[i] = v`. -/
def arr_set {α : Type} (a : Nat → α) (i : Nat) (v : α) : Nat → α :=
  fun j => if j = i then v else a j

/-! ## Ring buffer -/

/-- `blk_rep_get_next_for_write`: the slot `next_report_seqno_write % len`. -/
def blk_rep_get_next_for_write (priv : SlidingWindow) : Nat :=
  priv.next_report_seqno_write % REPORTS_LEN

/-- `blk_rep_write_finalize`: stamp the slot with the write counter, then
increment the write counter. -/
def blk_rep_write_finalize (priv : SlidingWindow) (rep : Nat) : SlidingWindow :=
  let priv1 : SlidingWindow :=
    { priv with
      reports := arr_set priv.reports rep
        { priv.reports rep with seqno := priv.next_report_seqno_write } }
  { priv1 with next_report_seqno_write := u64 (priv1.next_report_seqno_write + 1) }

/-- `blk_rep_get_unread`: the slot `next_report_seqno_read % len`. -/
def blk_rep_get_unread (priv : SlidingWindow) : Nat :=
  priv.next_report_seqno_read % REPORTS_LEN

/-- `blk_rep_read`: the unread slot, and the read counter incremented. -/
def blk_rep_read (priv : SlidingWindow) : SlidingWindow × Nat :=
  let rep := blk_rep_get_unread priv
  ({ priv with next_report_seqno_read := u64 (priv.next_report_seqno_read + 1) }, rep)

/-- `get_queue_length`: the `uint64_t` difference of the counters, returned
as `int`. -/
def get_queue_length (priv : SlidingWindow) : Int :=
  u64_to_int (u64_sub priv.next_report_seqno_write priv.next_report_seqno_read)

/-! ## Statistics -/

/-- The `for (i = 0; i < 5; i++)` loop of `render_update_vis`, with `n` indices
still to visit from `i` on. Returns the state and the value of `i` when the
loop is left (by `break` or by `i < 5` failing). -/
def render_update_vis_for (bs_vis : Nat → bs_vis_t) (blk_access_time : Nat) :
    Nat → Nat → SlidingWindow → SlidingWindow × Nat
  | 0, i, priv => (priv, i)
  | n + 1, i, priv =>
    if blk_access_time < (bs_vis i).access_time then
      ({ priv with
          access_time_stats_accum :=
            arr_set priv.access_time_stats_accum i (u64 (priv.access_time_stats_accum i + 1)) },
        i)
    else render_update_vis_for bs_vis blk_access_time n (i + 1) priv

/-- `render_update_vis`: account one consumed report. -/
def render_update_vis (bs_vis : Nat → bs_vis_t) (priv : SlidingWindow) (rep : Nat) :
    SlidingWindow :=
  let r := priv.reports rep
  if r.report.blk_status.val ≠ 0 then
    { priv with
      error_stats_accum :=
        arr_set priv.error_stats_accum r.report.blk_status.val
          (u64 (priv.error_stats_accum r.report.blk_status.val + 1)) }
  else
    let (priv1, i) := render_update_vis_for bs_vis r.report.blk_access_time 5 0 priv
    if i = 5 then
      { priv1 with
        access_time_stats_accum :=
          arr_set priv1.access_time_stats_accum 5 (u64 (priv1.access_time_stats_accum 5 + 1)) }
    else priv1

/-- `render_update_stats`: repaints the statistics, speed, ETA and LBA
windows from the state; no field of `SlidingWindow` is written. -/
def render_update_stats (priv : SlidingWindow) : SlidingWindow := priv

/-- The `while (queue_length)` loop of `render_queued` for a non-negative
`queue_length = n`. The second component lists the entries handed to
`render_update_vis`, in call order. -/
def render_queued_while (bs_vis : Nat → bs_vis_t) :
    Nat → SlidingWindow → SlidingWindow × List blk_report_t
  | 0, priv => (priv, [])
  | n + 1, priv =>
    let (priv1, cur_rep) := blk_rep_read priv
    let priv2 := render_update_vis bs_vis priv1 cur_rep
    let (priv3, rest) := render_queued_while bs_vis n priv2
    (priv3, priv1.reports cur_rep :: rest)

/-- `render_queued`: drain `get_queue_length` entries. A negative `int`
length makes `queue_length--` run down to `INT_MIN` and overflow. -/
def render_queued (bs_vis : Nat → bs_vis_t) (priv : SlidingWindow) :
    Except Fault (SlidingWindow × List blk_report_t) :=
  let queue_length := get_queue_length priv
  if 0 ≤ queue_length then
    let (priv1, seen) := render_queued_while bs_vis queue_length.toNat priv
    .ok (render_update_stats priv1, seen)
  else .error Fault.signed_overflow

/-! ## Producer side -/

/-- The local `bytes_processed` of `HandleReport`: `lba * 512` in `uint64_t`,
capped by the device capacity. -/
def bytes_processed (actctx : DC_ProcedureCtx) : Nat :=
  let bytes_processed := u64 (actctx.report.lba * 512)
  if bytes_processed > actctx.dev.capacity then actctx.dev.capacity else bytes_processed

/-- The local `time_elapsed_ms` of `HandleReport`: the difference of the two
clock readings in whole milliseconds, computed in `long` and stored in a
`uint64_t`. -/
def time_elapsed_ms (now start_time : timespec) : Nat :=
  Int.toNat
    ((now.tv_sec * 1000 + Int.tdiv now.tv_nsec (1000 * 1000)
        - start_time.tv_sec * 1000 - Int.tdiv start_time.tv_nsec (1000 * 1000)) % 2 ^ 64)

/-- Lines 218-243 of `HandleReport`: `bytes_processed`, `cur_lba`, and the
speed / ETA block. `clock_gettime` is the outcome of the clock call, should
the block make one; a failed call trips `assert(!r)`. -/
def HandleReport_speed_eta (clock_gettime : Option timespec) (priv : SlidingWindow)
    (actctx : DC_ProcedureCtx) : Except Fault SlidingWindow :=
  let bytes_processed := bytes_processed actctx
  let priv1 : SlidingWindow := { priv with cur_lba := actctx.report.lba }
  if actctx.progress.num = 1 then
    match clock_gettime with
    | none => .error Fault.assert_failed
    | some t => .ok { priv1 with start_time := t }
  else if actctx.progress.num % 10 = 0 then
    match clock_gettime with
    | none => .error Fault.assert_failed
    | some now =>
      let time_elapsed_ms := time_elapsed_ms now priv1.start_time
      if time_elapsed_ms > 0 then
        let avg_processing_speed := u64 (bytes_processed * 1000) / time_elapsed_ms
        if avg_processing_speed = 0 then .error Fault.div_by_zero
        else
          .ok
            { priv1 with
              avg_processing_speed := avg_processing_speed
              eta_time :=
                u64_sub (actctx.dev.capacity / avg_processing_speed) (time_elapsed_ms / 1000) }
      else .ok priv1
  else .ok priv1

/-- Lines 245-249 of `HandleReport` ("enqueue block report"): take the slot
for writing, copy the report into it, finalize. -/
def HandleReport_enqueue (priv : SlidingWindow) (report : DC_BlockReport) : SlidingWindow :=
  let rep := blk_rep_get_next_for_write priv
  let priv1 : SlidingWindow :=
    { priv with reports := arr_set priv.reports rep { priv.reports rep with report := report } }
  blk_rep_write_finalize priv1 rep

/-- `HandleReport`: the speed / ETA block, then the enqueue, then `return 0`
(the `.ok` result is the state at the return). -/
def HandleReport (clock_gettime : Option timespec) (priv : SlidingWindow)
    (actctx : DC_ProcedureCtx) : Except Fault SlidingWindow :=
  match HandleReport_speed_eta clock_gettime priv actctx with
  | .error e => .error e
  | .ok priv1 => .ok (HandleReport_enqueue priv1 actctx.report)

/-! ## Specification-side definitions -/

/-- The bucket the spec assigns to a latency: the first index `i` in `0..4`
with `access_time < t_i`, and `5` (overflow) when there is none. -/
def latency_bucket (bs_vis : Nat → bs_vis_t) (access_time : Nat) : Nat :=
  ((List.range 5).find? (fun i => decide (access_time < (bs_vis i).access_time))).getD 5

/-- A concrete latency table: thresholds of 3, 10, 50, 150 and 500 ms, in
microseconds. -/
def bs_vis_default : Nat → bs_vis_t
  | 0 => ⟨3000⟩
  | 1 => ⟨10000⟩
  | 2 => ⟨50000⟩
  | 3 => ⟨150000⟩
  | 4 => ⟨500000⟩
  | _ => ⟨0⟩

/-- A renderer state with every counter zero, an empty queue and all slots
zero. -/
def zero_state : SlidingWindow where
  start_time := ⟨0, 0⟩
  access_time_stats_accum := fun _ => 0
  error_stats_accum := fun _ => 0
  avg_processing_speed := 0
  eta_time := 0
  cur_lba := 0
  order_hangup := 0
  reports := fun _ => ⟨0, ⟨0, 0, 0⟩⟩
  next_report_seqno_write := 0
  next_report_seqno_read := 0

/-! ## The render thread and the two-thread schedule -/

/-- `Close`, up to the join: `priv->order_hangup = 1`. -/
def Close_order_hangup (priv : SlidingWindow) : SlidingWindow :=
  { priv with order_hangup := 1 }

/-- Control points of `render_thread_proc`: the test of the `while`, the
loop body, the `render_queued` after the loop, and `return NULL`. -/
inductive render_pc where
  | loop_test
  | loop_body
  | last_render
  | returned
  deriving DecidableEq, Repr

/-- Configuration of the render thread: its control point, the renderer
state, the entries handed to `render_update_vis` so far, and the number of
`render_queued` calls made so far. -/
structure render_thread where
  pc : render_pc
  priv : SlidingWindow
  seen : List blk_report_t
  calls : Nat

/-- One step of `render_thread_proc`:
`while (!priv->order_hangup) { render_queued(priv); usleep(40000); } render_queued(priv); return NULL;`.
A returned thread makes no further move. -/
def render_thread_step (bs_vis : Nat → bs_vis_t) (t : render_thread) :
    Except Fault render_thread :=
  match t.pc with
  | render_pc.loop_test =>
    if t.priv.order_hangup = 0 then .ok { t with pc := render_pc.loop_body }
    else .ok { t with pc := render_pc.last_render }
  | render_pc.loop_body =>
    match render_queued bs_vis t.priv with
    | .error e => .error e
    | .ok (priv1, seen1) =>
      .ok { pc := render_pc.loop_test, priv := priv1, seen := t.seen ++ seen1,
            calls := t.calls + 1 }
  | render_pc.last_render =>
    match render_queued bs_vis t.priv with
    | .error e => .error e
    | .ok (priv1, seen1) =>
      .ok { pc := render_pc.returned, priv := priv1, seen := t.seen ++ seen1,
            calls := t.calls + 1 }
  | render_pc.returned => .ok t

/-- The render thread running alone for `n` steps (the producer is blocked in
`pthread_join`). -/
def render_thread_run (bs_vis : Nat → bs_vis_t) : Nat → render_thread → Except Fault render_thread
  | 0, t => .ok t
  | n + 1, t =>
    match render_thread_step bs_vis t with
    | .error e => .error e
    | .ok t1 => render_thread_run bs_vis n t1

/-- One call in a schedule of the two threads: the host calls `HandleReport`
(with the outcome of its clock call and its context), or the render thread
calls `render_queued`. -/
inductive Step where
  | handle_report (clock_gettime : Option timespec) (actctx : DC_ProcedureCtx)
  | render_queued

/-- Effect of one scheduled call on the state, with the entries it handed to
`render_update_vis`. -/
def exec_step (bs_vis : Nat → bs_vis_t) (priv : SlidingWindow) :
    Step → Except Fault (SlidingWindow × List blk_report_t)
  | Step.handle_report clock_gettime actctx =>
    match HandleReport clock_gettime priv actctx with
    | .error e => .error e
    | .ok priv1 => .ok (priv1, [])
  | Step.render_queued => render_queued bs_vis priv

/-- Effect of a schedule: the final state and all entries handed to
`render_update_vis`, in call order. -/
def exec (bs_vis : Nat → bs_vis_t) :
    List Step → SlidingWindow → Except Fault (SlidingWindow × List blk_report_t)
  | [], priv => .ok (priv, [])
  | st :: rest, priv =>
    match exec_step bs_vis priv st with
    | .error e => .error e
    | .ok (priv1, seen1) =>
      match exec bs_vis rest priv1 with
      | .error e => .error e
      | .ok (priv2, seen2) => .ok (priv2, seen1 ++ seen2)

/-! ## Specification-side definitions (continued) -/

/-- The spec's `pending = write_seq - read_seq`, on the `uint64_t` counters. -/
def pending (priv : SlidingWindow) : Nat :=
  u64_sub priv.next_report_seqno_write priv.next_report_seqno_read

/-- Whether `pending ≤ N` holds in the start state and after every call of
the schedule (as far as the schedule runs). -/
def pending_bounded (bs_vis : Nat → bs_vis_t) : List Step → SlidingWindow → Bool
  | [], priv => decide (pending priv ≤ REPORTS_LEN)
  | st :: rest, priv =>
    decide (pending priv ≤ REPORTS_LEN) &&
      match exec_step bs_vis priv st with
      | .error _ => true
      | .ok (priv1, _) => pending_bounded bs_vis rest priv1

/-- The reports enqueued by a schedule, in enqueue order. -/
def enqueued : List Step → List DC_BlockReport
  | [] => []
  | Step.handle_report _ actctx :: rest => actctx.report :: enqueued rest
  | Step.render_queued :: rest => enqueued rest

/-- The reports of a list stamped with consecutive sequence numbers from `k`. -/
def stamp_from : Nat → List DC_BlockReport → List blk_report_t
  | _, [] => []
  | k, r :: rest => ⟨k, r⟩ :: stamp_from (k + 1) rest

/-- The counter a report is accounted in: `0..5` are the latency histogram
(`access_time_stats_accum[0..5]`), `6..10` the error counters
(`error_stats_accum[1..5]`). -/
def stat_class (bs_vis : Nat → bs_vis_t) (r : DC_BlockReport) : Nat :=
  if r.blk_status.val ≠ 0 then 5 + r.blk_status.val
  else latency_bucket bs_vis r.blk_access_time

/-- The counters of the state, numbered as in `stat_class`. -/
def stat_counter (priv : SlidingWindow) (c : Nat) : Nat :=
  if c < 6 then priv.access_time_stats_accum c else priv.error_stats_accum (c - 5)

/-- Sum of the six latency histogram counters. -/
def access_time_stats_total (priv : SlidingWindow) : Nat :=
  priv.access_time_stats_accum 0 + priv.access_time_stats_accum 1 +
    priv.access_time_stats_accum 2 + priv.access_time_stats_accum 3 +
    priv.access_time_stats_accum 4 + priv.access_time_stats_accum 5

/-- Whether `HandleReport` gets past its speed / ETA block: the clock call,
if made, succeeds, and the average speed, if computed, is not zero. Reads only
the clock outcome, `start_time` and the context. -/
def HandleReport_returns (clock_gettime : Option timespec) (start_time : timespec)
    (actctx : DC_ProcedureCtx) : Bool :=
  if actctx.progress.num = 1 then clock_gettime.isSome
  else if actctx.progress.num % 10 = 0 then
    match clock_gettime with
    | none => false
    | some now =>
      if time_elapsed_ms now start_time > 0 then
        decide (u64 (bytes_processed actctx * 1000) / time_elapsed_ms now start_time ≠ 0)
      else true
  else true

/-- A state whose slots all hold an OK report with access time 2999. -/
def c2_state : SlidingWindow :=
  { zero_state with reports := fun _ => ⟨0, ⟨7, 0, 2999⟩⟩ }

/-- A context for a 1,000,000-byte device: the report of block `lba` with
status `status` and access time 100, as the `num`-th report. -/
def sample_ctx (num lba : Nat) (status : Fin 6) : DC_ProcedureCtx where
  dev := ⟨1000000⟩
  blk_size := 512
  progress := ⟨num⟩
  report := ⟨lba, status, 100⟩
  interrupt := 0

/-- The context of `sample_ctx 10 10 0` with a block size of 4096. -/
def ctx_blk4096 : DC_ProcedureCtx :=
  { sample_ctx 10 10 0 with blk_size := 4096 }

/-- A state whose queue is full: `write_seq = 100000`, `read_seq = 0`, every
slot holding an OK report for block 1. -/
def full_state : SlidingWindow :=
  { zero_state with
    reports := fun _ => ⟨0, ⟨1, 0, 100⟩⟩
    next_report_seqno_write := 100000 }

/-- The schedule in which the host makes the given `HandleReport` calls (clock
outcome and context of each) and the render thread does not run. -/
def handle_report_calls (calls : List (Option timespec × DC_ProcedureCtx)) : List Step :=
  calls.map (fun c => Step.handle_report c.1 c.2)

/-- Nine calls numbered 1 to 9, for blocks 0 to 8, one every 5 ms. -/
def first_nine_calls : List (Option timespec × DC_ProcedureCtx) :=
  (List.range 9).map
    (fun (i : Nat) => (some (timespec.mk 0 (5000000 * Int.ofNat i)), sample_ctx (i + 1) i 0))

/-- The zero state after a first report whose clock reading was 100 s. -/
def started_state : SlidingWindow :=
  { zero_state with start_time := ⟨100, 0⟩ }

/-- The part of the state the render thread never writes is the same in
`priv` and `priv'`: everything but `read_seq` and the two counter arrays. -/
def render_frame (priv priv' : SlidingWindow) : Prop :=
  priv'.start_time = priv.start_time ∧
  priv'.avg_processing_speed = priv.avg_processing_speed ∧
  priv'.eta_time = priv.eta_time ∧
  priv'.cur_lba = priv.cur_lba ∧
  priv'.order_hangup = priv.order_hangup ∧
  priv'.reports = priv.reports ∧
  priv'.next_report_seqno_write = priv.next_report_seqno_write

/-- The queue holds what the list `L` of all reports enqueued so far says:
`write_seq` is their number (below `2^64`, so no counter has wrapped),
`read_seq` is behind it by at most `N`, and every unread sequence number `j`
has its report, stamped `j`, in slot `j mod N`. -/
def queue_inv (priv : SlidingWindow) (L : List DC_BlockReport) : Prop :=
  priv.next_report_seqno_write = L.length ∧
  priv.next_report_seqno_read ≤ priv.next_report_seqno_write ∧
  priv.next_report_seqno_write - priv.next_report_seqno_read ≤ REPORTS_LEN ∧
  L.length < 2 ^ 64 ∧
  ∀ j r, priv.next_report_seqno_read ≤ j → L[j]? = some r →
    priv.reports (j % REPORTS_LEN) = ⟨j, r⟩

/-- The classes (`stat_class`) of a list of handed entries. -/
def classes (bs_vis : Nat → bs_vis_t) (seen : List blk_report_t) : List Nat :=
  seen.map (fun e => stat_class bs_vis e.report)

/-- A short schedule: two reports (blocks 0 and 1, the second with error
status 3), a drain, a third report (block 2), a drain. -/
def short_schedule : List Step :=
  [Step.handle_report (some ⟨100, 0⟩) (sample_ctx 1 0 0),
   Step.handle_report none (sample_ctx 2 1 3),
   Step.render_queued,
   Step.handle_report none (sample_ctx 3 2 0),
   Step.render_queued]

/-- The calls of the spec's scenario, cut to `n` reports: a 1,000,000-byte
device, reports for `lba = 1..n`, alternately OK and error (kind 1), one
millisecond apart. -/
def scenario_calls (n : Nat) : List (Option timespec × DC_ProcedureCtx) :=
  (List.range n).map (fun (i : Nat) =>
    (some (timespec.mk (Int.ofNat (i / 1000)) (Int.ofNat (i % 1000) * 1000000)),
      sample_ctx (i + 1) (i + 1) (if i % 2 = 0 then 0 else 1)))

/-- The scenario as a schedule: the `n` reports, then one drain. -/
def scenario (n : Nat) : List Step :=
  handle_report_calls (scenario_calls n) ++ [Step.render_queued]

/-- A schedule that leaves one report unread: two reports, a drain, a third
report. -/
def unread_schedule : List Step :=
  [Step.handle_report (some ⟨100, 0⟩) (sample_ctx 1 0 0),
   Step.handle_report none (sample_ctx 2 1 3),
   Step.render_queued,
   Step.handle_report none (sample_ctx 3 2 0)]

/-- A state in which the producer is `2^31` entries ahead of the consumer:
`write_seq = 2147483648`, `read_seq = 0`. -/
def far_ahead_state : SlidingWindow :=
  { zero_state with next_report_seqno_write := 2147483648 }

/-- A state whose slot 0 holds a report with error status 3 and access time
2999. -/
def error_state : SlidingWindow :=
  { zero_state with reports := fun _ => ⟨0, ⟨7, 3, 2999⟩⟩ }

/-! ## Lifecycle: `Open` and `Close` as traces of effects -/

/-- The `WINDOW *` fields of `SlidingWindow`, kept apart from the rest of the
state. A window pointer is a number, `0` being `NULL`. -/
structure SlidingWindow_windows where
  legend : Nat
  vis : Nat
  access_time_stats : Nat
  avg_speed : Nat
  eta : Nat
  summary : Nat
  w_end_lba : Nat
  w_cur_lba : Nat
  w_log : Nat
  deriving DecidableEq, Repr

/-- The effects of `Open` and `Close` that concern the life of the windows
and of the render thread: a successful `derwin` (with the pointer it
returned), the `pthread_create` call, the store `order_hangup = 1`,
`pthread_join`, and `delwin` (with its argument). Painting calls, `beep`,
`getch` and `clear_body` are left out. -/
inductive Effect where
  | derwin (win : Nat)
  | pthread_create
  | order_hangup
  | pthread_join
  | delwin (win : Nat)
  deriving DecidableEq, Repr

/-- `Open`. The `i`-th `derwin` call of the function returns `derwin i`, and
`pthread_create` returns `pthread_create`. Every `derwin` result is asserted
to be non-`NULL`. The result is the window fields, the state (with
`reports[0].seqno = 1`), the trace of effects and the returned status. -/
def Open (derwin : Nat → Nat) (pthread_create : Int) (priv : SlidingWindow) :
    Except Fault (SlidingWindow_windows × SlidingWindow × List Effect × Int) :=
  let legend := derwin 0
  if legend = 0 then .error Fault.assert_failed else
  let access_time_stats := derwin 1
  if access_time_stats = 0 then .error Fault.assert_failed else
  let vis := derwin 2
  if vis = 0 then .error Fault.assert_failed else
  let avg_speed := derwin 3
  if avg_speed = 0 then .error Fault.assert_failed else
  let eta := derwin 4
  if eta = 0 then .error Fault.assert_failed else
  let summary := derwin 5
  if summary = 0 then .error Fault.assert_failed else
  let w_end_lba := derwin 6
  if w_end_lba = 0 then .error Fault.assert_failed else
  let w_cur_lba := derwin 7
  if w_cur_lba = 0 then .error Fault.assert_failed else
  let w_log := derwin 8
  if w_log = 0 then .error Fault.assert_failed else
  let priv1 : SlidingWindow :=
    { priv with reports := arr_set priv.reports 0 { priv.reports 0 with seqno := 1 } }
  let wins : SlidingWindow_windows :=
    { legend := legend, vis := vis, access_time_stats := access_time_stats,
      avg_speed := avg_speed, eta := eta, summary := summary, w_end_lba := w_end_lba,
      w_cur_lba := w_cur_lba, w_log := w_log }
  let trace : List Effect :=
    [Effect.derwin legend, Effect.derwin access_time_stats, Effect.derwin vis,
     Effect.derwin avg_speed, Effect.derwin eta, Effect.derwin summary,
     Effect.derwin w_end_lba, Effect.derwin w_cur_lba, Effect.derwin w_log,
     Effect.pthread_create]
  let r := pthread_create
  if r ≠ 0 then .ok (wins, priv1, trace, r)
  else .ok (wins, priv1, trace, 0)

/-- The effects of `Close`, in program order: the hangup flag, the join, and
the nine `delwin` calls on the window fields. (The state after the first
statement is `Close_order_hangup`.) -/
def Close_effects (wins : SlidingWindow_windows) : List Effect :=
  [Effect.order_hangup, Effect.pthread_join,
   Effect.delwin wins.legend, Effect.delwin wins.access_time_stats, Effect.delwin wins.vis,
   Effect.delwin wins.avg_speed, Effect.delwin wins.eta, Effect.delwin wins.summary,
   Effect.delwin wins.w_end_lba, Effect.delwin wins.w_cur_lba, Effect.delwin wins.w_log]

/-- The windows created in a trace, in order of creation. -/
def created : List Effect → List Nat
  | [] => []
  | Effect.derwin w :: rest => w :: created rest
  | _ :: rest => created rest

/-- The windows destroyed in a trace, in order of destruction. -/
def destroyed : List Effect → List Nat
  | [] => []
  | Effect.delwin w :: rest => w :: destroyed rest
  | _ :: rest => destroyed rest

/-- A `derwin` that returns the pointers 1, 2, 3, ... -/
def derwin_fresh (i : Nat) : Nat := i + 1

/-- Whether every `HandleReport` call of the schedule is made in a state with
`pending < N` (as far as the schedule runs). -/
def reports_guarded (bs_vis : Nat → bs_vis_t) : List Step → SlidingWindow → Bool
  | [], _ => true
  | st :: rest, priv =>
    (match st with
      | Step.handle_report _ _ => decide (pending priv < REPORTS_LEN)
      | Step.render_queued => true) &&
      match exec_step bs_vis priv st with
      | .error _ => true
      | .ok (priv1, _) => reports_guarded bs_vis rest priv1

/-- The slots hold the most recent reports: `write_seq` is the number of
reports enqueued so far (the list `L`, fewer than `2^64`), and each of the
last `N` sequence numbers `j` has its report, stamped `j`, in slot
`j mod N`. Unlike `queue_inv` this says nothing about `read_seq`, so it
survives an overflow of the queue. -/
def recent_inv (priv : SlidingWindow) (L : List DC_BlockReport) : Prop :=
  priv.next_report_seqno_write = L.length ∧
  L.length < 2 ^ 64 ∧
  ∀ j r, L[j]? = some r → L.length ≤ j + REPORTS_LEN →
    priv.reports (j % REPORTS_LEN) = ⟨j, r⟩

/-- Sum of all histogram and error counters: the six
`access_time_stats_accum` entries and `error_stats_accum[1..5]`. -/
def stats_total (priv : SlidingWindow) : Nat :=
  access_time_stats_total priv + priv.error_stats_accum 1 + priv.error_stats_accum 2 +
    priv.error_stats_accum 3 + priv.error_stats_accum 4 + priv.error_stats_accum 5

/-- `N + k` reports for blocks `0 .. N + k - 1` (status OK), none of them a
first or a tenth report, so that no clock is read. -/
def overflow_calls (k : Nat) : List (Option timespec × DC_ProcedureCtx) :=
  (List.range (REPORTS_LEN + k)).map (fun (i : Nat) => (none, sample_ctx 7 i 0))

/-! ## Latency bucketing -/

theorem latency_bucket_cases (bs_vis : Nat → bs_vis_t) (t : Nat) :
    latency_bucket bs_vis t =
      if t < (bs_vis 0).access_time then 0
      else if t < (bs_vis 1).access_time then 1
      else if t < (bs_vis 2).access_time then 2
      else if t < (bs_vis 3).access_time then 3
      else if t < (bs_vis 4).access_time then 4
      else 5 := by
  have h5 : List.range 5 = [0, 1, 2, 3, 4] := by decide
  unfold latency_bucket
  rw [h5]
  by_cases h0 : t < (bs_vis 0).access_time
  · simp [List.find?, h0]
  by_cases h1 : t < (bs_vis 1).access_time
  · simp [List.find?, h0, h1]
  by_cases h2 : t < (bs_vis 2).access_time
  · simp [List.find?, h0, h1, h2]
  by_cases h3 : t < (bs_vis 3).access_time
  · simp [List.find?, h0, h1, h2, h3]
  by_cases h4 : t < (bs_vis 4).access_time
  · simp [List.find?, h0, h1, h2, h3, h4]
  · simp [List.find?, h0, h1, h2, h3, h4]

theorem render_update_vis_ok_eq (bs_vis : Nat → bs_vis_t) (priv : SlidingWindow) (rep : Nat)
    (hok : (priv.reports rep).report.blk_status = 0) :
    render_update_vis bs_vis priv rep =
      { priv with
        access_time_stats_accum :=
          arr_set priv.access_time_stats_accum
            (latency_bucket bs_vis (priv.reports rep).report.blk_access_time)
            (u64 (priv.access_time_stats_accum
              (latency_bucket bs_vis (priv.reports rep).report.blk_access_time) + 1)) } := by
  rw [latency_bucket_cases]
  unfold render_update_vis
  simp only [hok, render_update_vis_for]
  split_ifs <;> simp_all

theorem latency_bucket_le (bs_vis : Nat → bs_vis_t) (t : Nat) :
    latency_bucket bs_vis t ≤ 5 := by
  rw [latency_bucket_cases]
  split_ifs <;> omega

theorem latency_bucket_hit (bs_vis : Nat → bs_vis_t) (t : Nat)
    (h : latency_bucket bs_vis t < 5) :
    t < (bs_vis (latency_bucket bs_vis t)).access_time := by
  rw [latency_bucket_cases] at h ⊢
  split_ifs at h ⊢ <;> first | assumption | omega

theorem latency_bucket_first (bs_vis : Nat → bs_vis_t) (t j : Nat)
    (h : j < latency_bucket bs_vis t) : ¬ t < (bs_vis j).access_time := by
  rw [latency_bucket_cases] at h
  split_ifs at h <;> interval_cases j <;> omega

theorem u64_of_lt {x : Nat} (h : x < 2 ^ 64) : u64 x = x := Nat.mod_eq_of_lt h

/-- C2. Latency bucketing: for a strictly ascending threshold table and a
report with status OK, `render_update_vis` adds one to the histogram counter
of the first index `b` in `0..4` whose threshold exceeds the access time, or
of index `5` when no threshold does, and leaves every other histogram counter
as it was. The counter is a `uint64_t`, so "adds one" is `u64 (c + 1)`, which
is `c + 1` unless the counter stands at `2^64 - 1`. A report whose access time
is `t_i - 1` (that is, `access_time + 1 = t_i`) lands in bucket `i`, and one
with `access_time ≥ t_4` in the overflow bucket. -/
theorem C2_latency_bucketing (bs_vis : Nat → bs_vis_t) (priv : SlidingWindow) (rep : Nat)
    (hasc : (bs_vis 0).access_time < (bs_vis 1).access_time ∧
      (bs_vis 1).access_time < (bs_vis 2).access_time ∧
      (bs_vis 2).access_time < (bs_vis 3).access_time ∧
      (bs_vis 3).access_time < (bs_vis 4).access_time)
    (hok : (priv.reports rep).report.blk_status = 0) :
    let t := (priv.reports rep).report.blk_access_time
    let b := latency_bucket bs_vis t
    let priv' := render_update_vis bs_vis priv rep
    b ≤ 5 ∧ (b < 5 → t < (bs_vis b).access_time) ∧
    (∀ j, j < b → ¬ t < (bs_vis j).access_time) ∧
    priv'.access_time_stats_accum b = u64 (priv.access_time_stats_accum b + 1) ∧
    (priv.access_time_stats_accum b + 1 < 2 ^ 64 →
      priv'.access_time_stats_accum b = priv.access_time_stats_accum b + 1) ∧
    (∀ j, j ≠ b → priv'.access_time_stats_accum j = priv.access_time_stats_accum j) ∧
    (∀ i, i < 5 → t + 1 = (bs_vis i).access_time → b = i) ∧
    ((bs_vis 4).access_time ≤ t → b = 5) := by
  intro t b priv'
  have hupd : priv' = _ := render_update_vis_ok_eq bs_vis priv rep hok
  have hb : priv'.access_time_stats_accum b = u64 (priv.access_time_stats_accum b + 1) := by
    rw [hupd]; simp [arr_set, b, t]
  refine ⟨latency_bucket_le _ _, latency_bucket_hit _ _, fun j hj => latency_bucket_first _ _ j hj,
    hb, fun hlt => by rw [hb, u64_of_lt hlt], ?_, ?_, ?_⟩
  · intro j hj
    rw [hupd]
    simp only [arr_set]
    rw [if_neg hj]
  · intro i hi hti
    obtain ⟨h01, h12, h23, h34⟩ := hasc
    show latency_bucket bs_vis t = i
    rw [latency_bucket_cases]
    interval_cases i <;> split_ifs <;> omega
  · intro h4
    obtain ⟨h01, h12, h23, h34⟩ := hasc
    show latency_bucket bs_vis t = 5
    rw [latency_bucket_cases]
    split_ifs <;> omega

/-- Witness of C2: the concrete table, a state whose slot 0 holds an OK
report with access time 2999 = t_0 - 1. -/
theorem C2_latency_bucketing_witness :
    (c2_state.reports 0).report.blk_status = 0 ∧
    latency_bucket bs_vis_default 2999 = 0 ∧
    (render_update_vis bs_vis_default c2_state 0).access_time_stats_accum 0 = 1 :=
  have h := C2_latency_bucketing bs_vis_default c2_state 0 (by decide) rfl
  ⟨rfl, h.2.2.2.2.2.2.1 0 (by decide) rfl, h.2.2.2.2.1 (by decide)⟩

end Whdd

namespace Whdd

/-! ## `HandleReport` -/

theorem HandleReport_enqueue_eq (priv : SlidingWindow) (report : DC_BlockReport) :
    HandleReport_enqueue priv report =
      { priv with
        reports := arr_set priv.reports (priv.next_report_seqno_write % REPORTS_LEN)
          ⟨priv.next_report_seqno_write, report⟩
        next_report_seqno_write := u64 (priv.next_report_seqno_write + 1) } := by
  have key : ∀ (rs : Nat → blk_report_t) (i w : Nat) (r : DC_BlockReport),
      arr_set (arr_set rs i { rs i with report := r }) i
        { arr_set rs i { rs i with report := r } i with seqno := w } = arr_set rs i ⟨w, r⟩ := by
    intro rs i w r
    funext j
    simp only [arr_set]
    split_ifs <;> simp
  simp only [HandleReport_enqueue, blk_rep_write_finalize, blk_rep_get_next_for_write, key]

/-- The speed / ETA block touches only `start_time`, `avg_processing_speed`,
`eta_time` and `cur_lba`. -/
theorem HandleReport_speed_eta_shape (clk : Option timespec) (priv : SlidingWindow)
    (actctx : DC_ProcedureCtx) (priv1 : SlidingWindow)
    (h : HandleReport_speed_eta clk priv actctx = .ok priv1) :
    ∃ st avg eta,
      priv1 =
        { priv with
          start_time := st
          avg_processing_speed := avg
          eta_time := eta
          cur_lba := actctx.report.lba } := by
  unfold HandleReport_speed_eta at h
  simp only at h
  split_ifs at h <;> (try cases clk) <;> (try simp at h) <;> (try split_ifs at h) <;>
    (try simp at h) <;> exact ⟨_, _, _, h.symm⟩

theorem HandleReport_ok_shape (clk : Option timespec) (priv : SlidingWindow)
    (actctx : DC_ProcedureCtx) (priv' : SlidingWindow)
    (h : HandleReport clk priv actctx = .ok priv') :
    ∃ st avg eta,
      priv' =
        { priv with
          start_time := st
          avg_processing_speed := avg
          eta_time := eta
          cur_lba := actctx.report.lba
          reports := arr_set priv.reports (priv.next_report_seqno_write % REPORTS_LEN)
            ⟨priv.next_report_seqno_write, actctx.report⟩
          next_report_seqno_write := u64 (priv.next_report_seqno_write + 1) } := by
  unfold HandleReport at h
  split at h
  · exact absurd h (by simp)
  · rename_i priv1 h1
    obtain ⟨st, avg, eta, rfl⟩ := HandleReport_speed_eta_shape clk priv actctx priv1 h1
    simp only [Except.ok.injEq] at h
    subst h
    exact ⟨st, avg, eta, by rw [HandleReport_enqueue_eq]⟩

/-- `HandleReport` returns exactly when `HandleReport_returns` says so. -/
theorem HandleReport_ok_iff (clk : Option timespec) (priv : SlidingWindow)
    (actctx : DC_ProcedureCtx) :
    (∃ priv', HandleReport clk priv actctx = .ok priv') ↔
      HandleReport_returns clk priv.start_time actctx = true := by
  unfold HandleReport HandleReport_speed_eta HandleReport_returns
  simp only
  split_ifs <;> cases clk <;> simp
  split_ifs <;> simp_all
  omega

theorem HandleReport_speed_eta_gate_open (now : timespec) (priv : SlidingWindow)
    (actctx : DC_ProcedureCtx) (hnum1 : actctx.progress.num ≠ 1)
    (h10 : actctx.progress.num % 10 = 0) (hms : 0 < time_elapsed_ms now priv.start_time) :
    HandleReport_speed_eta (some now) priv actctx =
      if u64 (bytes_processed actctx * 1000) / time_elapsed_ms now priv.start_time = 0 then
        .error Fault.div_by_zero
      else
        .ok
          { priv with
            cur_lba := actctx.report.lba
            avg_processing_speed :=
              u64 (bytes_processed actctx * 1000) / time_elapsed_ms now priv.start_time
            eta_time :=
              u64_sub
                (actctx.dev.capacity /
                  (u64 (bytes_processed actctx * 1000) / time_elapsed_ms now priv.start_time))
                (time_elapsed_ms now priv.start_time / 1000) } := by
  unfold HandleReport_speed_eta
  simp only [if_neg hnum1, if_pos h10, gt_iff_lt, if_pos hms]

/-- C4. Speed / ETA formula: for a `HandleReport` call with `progress.num ≠ 1`,
`progress.num` a multiple of 10 and `elapsed_ms > 0`, the state at the return
has `avg_speed = bytes_processed * 1000 / elapsed_ms` and
`eta_seconds = capacity / avg_speed - elapsed_ms / 1000`, in `uint64_t`
arithmetic with truncating division, `bytes_processed` being the capped byte
count of this report. The call reaches its return exactly when the divisor
`avg_speed` is not zero. -/
theorem C4_speed_eta_formula (now : timespec) (priv : SlidingWindow) (actctx : DC_ProcedureCtx)
    (hnum1 : actctx.progress.num ≠ 1) (h10 : actctx.progress.num % 10 = 0)
    (hms : 0 < time_elapsed_ms now priv.start_time) :
    ((∃ priv', HandleReport (some now) priv actctx = .ok priv') ↔
      u64 (bytes_processed actctx * 1000) / time_elapsed_ms now priv.start_time ≠ 0) ∧
    ∀ priv', HandleReport (some now) priv actctx = .ok priv' →
      priv'.avg_processing_speed =
        u64 (bytes_processed actctx * 1000) / time_elapsed_ms now priv.start_time ∧
      priv'.eta_time =
        u64_sub (actctx.dev.capacity / priv'.avg_processing_speed)
          (time_elapsed_ms now priv.start_time / 1000) := by
  have hse := HandleReport_speed_eta_gate_open now priv actctx hnum1 h10 hms
  constructor
  · unfold HandleReport
    rw [hse]
    split_ifs with h0 <;> simp [h0]
  · intro priv' h
    unfold HandleReport at h
    rw [hse] at h
    split_ifs at h with h0
    simp only [Except.ok.injEq] at h
    subst h
    simp [HandleReport_enqueue_eq]

/-- Witness of C4: the tenth report, for block 7 of a 1,000,000-byte device,
one second after the start: 3584 bytes/s and an ETA of 278 s. -/
theorem C4_speed_eta_formula_witness :
    (sample_ctx 10 7 0).progress.num ≠ 1 ∧ (sample_ctx 10 7 0).progress.num % 10 = 0 ∧
    0 < time_elapsed_ms ⟨1, 0⟩ zero_state.start_time ∧
    ∃ priv', HandleReport (some ⟨1, 0⟩) zero_state (sample_ctx 10 7 0) = .ok priv' ∧
      priv'.avg_processing_speed = 3584 ∧ priv'.eta_time = 278 :=
  have h := C4_speed_eta_formula ⟨1, 0⟩ zero_state (sample_ctx 10 7 0)
    (by decide) (by decide) (by decide)
  ⟨by decide, by decide, by decide,
    (h.1.2 (by decide)).elim fun priv' hp =>
      ⟨priv', hp, (h.2 priv' hp).1.trans (by decide),
        (h.2 priv' hp).2.trans (by rw [(h.2 priv' hp).1]; decide)⟩⟩

theorem HandleReport_gated (clk : Option timespec) (priv : SlidingWindow)
    (actctx : DC_ProcedureCtx)
    (hclk : actctx.progress.num = 1 ∨ actctx.progress.num % 10 = 0 → clk.isSome = true)
    (hgate : actctx.progress.num = 1 ∨ actctx.progress.num % 10 ≠ 0 ∨
      ∀ now, clk = some now → time_elapsed_ms now priv.start_time = 0) :
    ∃ priv', HandleReport clk priv actctx = .ok priv' ∧
      priv'.avg_processing_speed = priv.avg_processing_speed ∧
      priv'.eta_time = priv.eta_time := by
  unfold HandleReport HandleReport_speed_eta
  simp only
  by_cases h1 : actctx.progress.num = 1
  · obtain ⟨t, rfl⟩ := Option.isSome_iff_exists.mp (hclk (Or.inl h1))
    simp [h1, HandleReport_enqueue_eq]
  · by_cases h10 : actctx.progress.num % 10 = 0
    · obtain ⟨now, rfl⟩ := Option.isSome_iff_exists.mp (hclk (Or.inr h10))
      have hz : time_elapsed_ms now priv.start_time = 0 := by
        rcases hgate with h | h | h
        · exact absurd h h1
        · exact absurd h10 h
        · exact h now rfl
      simp [h1, h10, hz, HandleReport_enqueue_eq]
    · simp [h1, h10, HandleReport_enqueue_eq]

theorem exec_gated_calls (bs_vis : Nat → bs_vis_t)
    (calls : List (Option timespec × DC_ProcedureCtx))
    (h : ∀ c ∈ calls, (c.2.progress.num = 1 ∧ c.1.isSome = true) ∨
      (c.2.progress.num ≠ 1 ∧ c.2.progress.num % 10 ≠ 0)) (priv : SlidingWindow) :
    ∃ priv', exec bs_vis (handle_report_calls calls) priv = .ok (priv', []) ∧
      priv'.avg_processing_speed = priv.avg_processing_speed ∧
      priv'.eta_time = priv.eta_time := by
  induction calls generalizing priv with
  | nil => exact ⟨priv, rfl, rfl, rfl⟩
  | cons c rest ih =>
    have hc := h c (List.mem_cons_self _ _)
    obtain ⟨p1, hp1, ha1, he1⟩ := HandleReport_gated c.1 priv c.2
      (by
        intro hh
        rcases hc with ⟨_, hs⟩ | ⟨hn1, hn10⟩
        · exact hs
        · rcases hh with hh | hh
          · exact absurd hh hn1
          · exact absurd hh hn10)
      (by
        rcases hc with ⟨h1, _⟩ | ⟨_, hn10⟩
        · exact Or.inl h1
        · exact Or.inr (Or.inl hn10))
    obtain ⟨p2, hp2, ha2, he2⟩ := ih (fun c' hc' => h c' (List.mem_cons_of_mem _ hc')) p1
    refine ⟨p2, ?_, ha2.trans ha1, he2.trans he1⟩
    simp only [handle_report_calls, List.map_cons, exec, exec_step] at hp2 ⊢
    rw [hp1]
    simp only [hp2, List.append_nil]

/-- C5. Speed / ETA gating: a `HandleReport` call whose `progress.num` is 1, or
is not a multiple of 10, or for which `elapsed_ms = 0` (the clock call, where
one is made, succeeding) returns with `avg_speed` and `eta_seconds` at their
previous values; so from a state where both are 0, after the calls with
`progress.num = 1, 2, ..., 9` both are still 0. -/
theorem C5_speed_eta_gating :
    (∀ (clk : Option timespec) (priv : SlidingWindow) (actctx : DC_ProcedureCtx),
      (actctx.progress.num = 1 ∨ actctx.progress.num % 10 = 0 → clk.isSome = true) →
      (actctx.progress.num = 1 ∨ actctx.progress.num % 10 ≠ 0 ∨
        ∀ now, clk = some now → time_elapsed_ms now priv.start_time = 0) →
      ∃ priv', HandleReport clk priv actctx = .ok priv' ∧
        priv'.avg_processing_speed = priv.avg_processing_speed ∧
        priv'.eta_time = priv.eta_time) ∧
    (∀ (bs_vis : Nat → bs_vis_t) (calls : List (Option timespec × DC_ProcedureCtx))
      (priv : SlidingWindow),
      calls.map (fun c => c.2.progress.num) = [1, 2, 3, 4, 5, 6, 7, 8, 9] →
      (∀ c ∈ calls, c.2.progress.num = 1 → c.1.isSome = true) →
      priv.avg_processing_speed = 0 → priv.eta_time = 0 →
      ∃ priv', exec bs_vis (handle_report_calls calls) priv = .ok (priv', []) ∧
        priv'.avg_processing_speed = 0 ∧ priv'.eta_time = 0) := by
  refine ⟨HandleReport_gated, ?_⟩
  intro bs_vis calls priv hnums hclk ha he
  have hall : ∀ c ∈ calls, (c.2.progress.num = 1 ∧ c.1.isSome = true) ∨
      (c.2.progress.num ≠ 1 ∧ c.2.progress.num % 10 ≠ 0) := by
    intro c hc
    have hmem : c.2.progress.num ∈ calls.map (fun c => c.2.progress.num) :=
      List.mem_map.mpr ⟨c, hc, rfl⟩
    rw [hnums] at hmem
    simp only [List.mem_cons, List.mem_singleton, List.not_mem_nil, or_false] at hmem
    by_cases h1 : c.2.progress.num = 1
    · exact Or.inl ⟨h1, hclk c hc h1⟩
    · exact Or.inr ⟨h1, by omega⟩
  obtain ⟨p, hp, hpa, hpe⟩ := exec_gated_calls bs_vis calls hall priv
  exact ⟨p, hp, hpa.trans ha, hpe.trans he⟩

/-- Witness of C5: the first report (`progress.num = 1`) in the zero state, and
nine calls numbered 1 to 9 from the zero state. -/
theorem C5_speed_eta_gating_witness :
    (∃ priv', HandleReport (some ⟨5, 0⟩) zero_state (sample_ctx 1 0 0) = .ok priv' ∧
      priv'.avg_processing_speed = zero_state.avg_processing_speed ∧
      priv'.eta_time = zero_state.eta_time) ∧
    (first_nine_calls.map (fun c => c.2.progress.num) = [1, 2, 3, 4, 5, 6, 7, 8, 9] ∧
      ∃ priv', exec bs_vis_default (handle_report_calls first_nine_calls) zero_state
          = .ok (priv', []) ∧
        priv'.avg_processing_speed = 0 ∧ priv'.eta_time = 0) :=
  ⟨C5_speed_eta_gating.1 (some ⟨5, 0⟩) zero_state (sample_ctx 1 0 0) (fun _ => rfl)
      (Or.inl rfl),
    by decide,
    C5_speed_eta_gating.2 bs_vis_default first_nine_calls zero_state (by decide)
      (by decide) rfl rfl⟩

/-- C6. `HandleReport` does not always return: with two successful clock
readings one second apart, the tenth report, for block 0, makes
`avg_processing_speed = 0 * 1000 / 1000 = 0`, and the division
`capacity / avg_processing_speed` that follows has a zero divisor. -/
theorem C6_HandleReport_divides_by_zero :
    HandleReport (some ⟨101, 0⟩) started_state (sample_ctx 10 0 0)
      = .error Fault.div_by_zero := rfl

/-- C8, as stated, fails: with `blk_size = 4096`, `lba = 10` and a capacity of
1,000,000 the byte count of `HandleReport` is not `min (lba * blk_size)
capacity`: the code works with 5120 bytes (a speed of 5120 bytes/s after one
second), while `min (lba * blk_size) capacity` is 40960. -/
theorem C8_counterexample :
    bytes_processed ctx_blk4096
      ≠ min (ctx_blk4096.report.lba * ctx_blk4096.blk_size.toNat) ctx_blk4096.dev.capacity ∧
    bytes_processed ctx_blk4096 = 5120 ∧
    min (ctx_blk4096.report.lba * ctx_blk4096.blk_size.toNat) ctx_blk4096.dev.capacity = 40960 ∧
    ∃ priv', HandleReport (some ⟨101, 0⟩) started_state ctx_blk4096 = .ok priv' ∧
      priv'.avg_processing_speed = 5120 :=
  ⟨by decide, by decide, by decide, _, rfl, by decide⟩

/-- C8, amended. The byte count `HandleReport` uses for the speed is
`min (lba * 512 mod 2^64) capacity`: the sector size is the constant 512, the
context's `blk_size` is not read (changing it changes nothing), and with the
gate open the returned state has
`avg_speed = min (lba * 512 mod 2^64) capacity * 1000 / elapsed_ms`. -/
theorem C8_bytes_processed_uses_512 (clk : Option timespec) (priv : SlidingWindow)
    (actctx : DC_ProcedureCtx) :
    bytes_processed actctx = min (u64 (actctx.report.lba * 512)) actctx.dev.capacity ∧
    (∀ b : Int, HandleReport clk priv { actctx with blk_size := b }
      = HandleReport clk priv actctx) ∧
    (∀ now priv', clk = some now → actctx.progress.num ≠ 1 → actctx.progress.num % 10 = 0 →
      0 < time_elapsed_ms now priv.start_time →
      HandleReport clk priv actctx = .ok priv' →
      priv'.avg_processing_speed =
        u64 (min (u64 (actctx.report.lba * 512)) actctx.dev.capacity * 1000)
          / time_elapsed_ms now priv.start_time) := by
  have hb : bytes_processed actctx = min (u64 (actctx.report.lba * 512)) actctx.dev.capacity := by
    unfold bytes_processed
    simp only
    split_ifs with h
    · exact (Nat.min_eq_right (Nat.le_of_lt h)).symm
    · exact (Nat.min_eq_left (Nat.le_of_not_lt h)).symm
  refine ⟨hb, fun b => rfl, ?_⟩
  intro now priv' hclk h1 h10 hms hok
  subst hclk
  rw [← hb]
  unfold HandleReport at hok
  rw [HandleReport_speed_eta_gate_open now priv actctx h1 h10 hms] at hok
  split_ifs at hok with h0
  simp only [Except.ok.injEq] at hok
  subst hok
  simp [HandleReport_enqueue_eq]

/-- Witness of C8 (amended): the context with `blk_size = 4096`, one second
after the start. -/
theorem C8_bytes_processed_uses_512_witness :
    bytes_processed ctx_blk4096 = min (u64 (10 * 512)) 1000000 ∧
    ∃ priv', HandleReport (some ⟨101, 0⟩) started_state ctx_blk4096 = .ok priv' ∧
      priv'.avg_processing_speed = 5120 :=
  have h := C8_bytes_processed_uses_512 (some ⟨101, 0⟩) started_state ctx_blk4096
  ⟨h.1, _, rfl,
    (h.2.2 ⟨101, 0⟩ _ rfl (by decide) (by decide) (by decide) rfl).trans (by decide)⟩

/-! ## Producer step and overflow -/

theorem mod_len_add_len (r : Nat) : (r + REPORTS_LEN) % REPORTS_LEN = r % REPORTS_LEN :=
  Nat.add_mod_right r REPORTS_LEN

/-- C9. Overflow overwrites silently: in a state with `pending = N`
(`write_seq = read_seq + 100000`) `HandleReport` returns under exactly the
same condition as in any other state (`HandleReport_returns` does not read the
queue), the slot it writes is the slot of the oldest unread entry,
`read_seq mod N`, which afterwards holds the new report stamped with the old
`write_seq`, and the next `blk_rep_read` yields that slot: the new report
instead of the oldest one. -/
theorem C9_overflow_overwrites_oldest (clk : Option timespec) (priv : SlidingWindow)
    (actctx : DC_ProcedureCtx)
    (hfull : priv.next_report_seqno_write = priv.next_report_seqno_read + REPORTS_LEN) :
    ((∃ priv', HandleReport clk priv actctx = .ok priv') ↔
      HandleReport_returns clk priv.start_time actctx = true) ∧
    ∀ priv', HandleReport clk priv actctx = .ok priv' →
      blk_rep_get_next_for_write priv = blk_rep_get_unread priv ∧
      priv'.reports (priv.next_report_seqno_read % REPORTS_LEN)
        = ⟨priv.next_report_seqno_write, actctx.report⟩ ∧
      priv'.next_report_seqno_read = priv.next_report_seqno_read ∧
      (blk_rep_read priv').2 = priv.next_report_seqno_read % REPORTS_LEN ∧
      priv'.reports (blk_rep_read priv').2 = ⟨priv.next_report_seqno_write, actctx.report⟩ := by
  refine ⟨HandleReport_ok_iff clk priv actctx, ?_⟩
  intro priv' h
  obtain ⟨st, avg, eta, rfl⟩ := HandleReport_ok_shape clk priv actctx priv' h
  have hidx : priv.next_report_seqno_write % REPORTS_LEN
      = priv.next_report_seqno_read % REPORTS_LEN := by
    rw [hfull, mod_len_add_len]
  simp only [blk_rep_get_next_for_write, blk_rep_get_unread, blk_rep_read, arr_set, hidx,
    if_true, and_self]

/-- Witness of C9: the full queue (`write_seq = 100000`, `read_seq = 0`) and a
report for block 42. -/
theorem C9_overflow_overwrites_oldest_witness :
    full_state.next_report_seqno_write = full_state.next_report_seqno_read + REPORTS_LEN ∧
    full_state.reports 0 = ⟨0, ⟨1, 0, 100⟩⟩ ∧
    ∃ priv', HandleReport none full_state (sample_ctx 7 42 0) = .ok priv' ∧
      priv'.reports (blk_rep_read priv').2 = ⟨100000, ⟨42, 0, 100⟩⟩ :=
  have h := C9_overflow_overwrites_oldest none full_state (sample_ctx 7 42 0) (by decide)
  ⟨by decide, rfl, (h.1.2 (by decide)).elim fun priv' hp => ⟨priv', hp, (h.2 priv' hp).2.2.2.2⟩⟩

/-- C10. Producer step contract: when `HandleReport` returns from a state with
`write_seq = w`, the slot `w mod 100000` holds `{seqno = w, report = r}`,
`write_seq` is `w + 1` in `uint64_t` (so `w + 1` unless `w = 2^64 - 1`), every
other slot, `read_seq` and all histogram and error counters are unchanged, and
the increment is the last write: the returned state is a state with the slot
already complete and `write_seq = w`, with only the counter incremented. -/
theorem C10_producer_step (clk : Option timespec) (priv : SlidingWindow)
    (actctx : DC_ProcedureCtx) (priv' : SlidingWindow)
    (h : HandleReport clk priv actctx = .ok priv') :
    priv'.reports (priv.next_report_seqno_write % REPORTS_LEN)
      = ⟨priv.next_report_seqno_write, actctx.report⟩ ∧
    priv'.next_report_seqno_write = u64 (priv.next_report_seqno_write + 1) ∧
    (priv.next_report_seqno_write + 1 < 2 ^ 64 →
      priv'.next_report_seqno_write = priv.next_report_seqno_write + 1) ∧
    (∀ j, j ≠ priv.next_report_seqno_write % REPORTS_LEN → priv'.reports j = priv.reports j) ∧
    priv'.next_report_seqno_read = priv.next_report_seqno_read ∧
    priv'.access_time_stats_accum = priv.access_time_stats_accum ∧
    priv'.error_stats_accum = priv.error_stats_accum ∧
    ∃ mid : SlidingWindow,
      mid.next_report_seqno_write = priv.next_report_seqno_write ∧
      mid.reports (priv.next_report_seqno_write % REPORTS_LEN)
        = ⟨priv.next_report_seqno_write, actctx.report⟩ ∧
      priv' = { mid with next_report_seqno_write := u64 (mid.next_report_seqno_write + 1) } := by
  obtain ⟨st, avg, eta, rfl⟩ := HandleReport_ok_shape clk priv actctx priv' h
  refine ⟨by simp [arr_set], rfl, fun hlt => u64_of_lt hlt, ?_, rfl, rfl, rfl, ?_⟩
  · intro j hj
    simp [arr_set, hj]
  · exact ⟨{ priv with
        start_time := st
        avg_processing_speed := avg
        eta_time := eta
        cur_lba := actctx.report.lba
        reports := arr_set priv.reports (priv.next_report_seqno_write % REPORTS_LEN)
          ⟨priv.next_report_seqno_write, actctx.report⟩ },
      rfl, by simp [arr_set], rfl⟩

/-- Witness of C10: the seventh report, for block 42, into the zero state. -/
theorem C10_producer_step_witness :
    ∃ priv', HandleReport none zero_state (sample_ctx 7 42 0) = .ok priv' ∧
      priv'.reports 0 = ⟨0, ⟨42, 0, 100⟩⟩ ∧ priv'.next_report_seqno_write = 1 :=
  ⟨_, rfl, (C10_producer_step none zero_state (sample_ctx 7 42 0) _ rfl).1,
    (C10_producer_step none zero_state (sample_ctx 7 42 0) _ rfl).2.2.1 (by decide)⟩

/-! ## Consumer side: one report, one drain -/

theorem u64_u64_add (x y : Nat) : u64 (u64 x + y) = u64 (x + y) := by
  unfold u64
  omega

/-- `render_update_vis` writes only the two counter arrays. -/
theorem render_update_vis_shape (bs_vis : Nat → bs_vis_t) (priv : SlidingWindow) (rep : Nat) :
    ∃ h e, render_update_vis bs_vis priv rep =
      { priv with access_time_stats_accum := h, error_stats_accum := e } := by
  by_cases hok : (priv.reports rep).report.blk_status = 0
  · rw [render_update_vis_ok_eq bs_vis priv rep hok]
    exact ⟨_, _, rfl⟩
  · have hv : (priv.reports rep).report.blk_status.val ≠ 0 := fun hv => hok (Fin.ext hv)
    unfold render_update_vis
    simp only [hv, ne_eq, not_false_eq_true, if_true]
    exact ⟨_, _, rfl⟩

/-- `render_update_vis` adds one, in `uint64_t`, to the counter of the
report's class and leaves every other counter alone. -/
theorem render_update_vis_counter (bs_vis : Nat → bs_vis_t) (priv : SlidingWindow)
    (rep c : Nat) :
    stat_counter (render_update_vis bs_vis priv rep) c =
      if c = stat_class bs_vis (priv.reports rep).report then u64 (stat_counter priv c + 1)
      else stat_counter priv c := by
  by_cases hok : (priv.reports rep).report.blk_status = 0
  · rw [render_update_vis_ok_eq bs_vis priv rep hok]
    have hb := latency_bucket_le bs_vis (priv.reports rep).report.blk_access_time
    simp only [stat_counter, stat_class, hok, Fin.val_zero, ne_eq, not_true_eq_false, if_false,
      arr_set]
    split_ifs <;> first | rfl | omega | (subst_vars; rfl)
  · have hv : (priv.reports rep).report.blk_status.val ≠ 0 := fun hv => hok (Fin.ext hv)
    have hlt := (priv.reports rep).report.blk_status.isLt
    unfold render_update_vis
    simp only [hv, ne_eq, not_false_eq_true, if_true, stat_counter, stat_class, arr_set]
    split_ifs <;> first | rfl | omega | (subst_vars; simp)

theorem render_queued_while_succ (bs_vis : Nat → bs_vis_t) (n : Nat) (priv : SlidingWindow) :
    render_queued_while bs_vis (n + 1) priv =
      ((render_queued_while bs_vis n
          (render_update_vis bs_vis
            { priv with next_report_seqno_read := u64 (priv.next_report_seqno_read + 1) }
            (priv.next_report_seqno_read % REPORTS_LEN))).1,
        priv.reports (priv.next_report_seqno_read % REPORTS_LEN) ::
          (render_queued_while bs_vis n
            (render_update_vis bs_vis
              { priv with next_report_seqno_read := u64 (priv.next_report_seqno_read + 1) }
              (priv.next_report_seqno_read % REPORTS_LEN))).2) := rfl

theorem render_frame_trans {a b c : SlidingWindow} (hab : render_frame a b)
    (hbc : render_frame b c) : render_frame a c := by
  obtain ⟨h1, h2, h3, h4, h5, h6, h7⟩ := hab
  obtain ⟨g1, g2, g3, g4, g5, g6, g7⟩ := hbc
  exact ⟨g1.trans h1, g2.trans h2, g3.trans h3, g4.trans h4, g5.trans h5, g6.trans h6,
    g7.trans h7⟩

theorem render_update_vis_frame (bs_vis : Nat → bs_vis_t) (priv : SlidingWindow) (rep : Nat) :
    render_frame priv (render_update_vis bs_vis priv rep) ∧
    (render_update_vis bs_vis priv rep).next_report_seqno_read = priv.next_report_seqno_read := by
  obtain ⟨h, e, heq⟩ := render_update_vis_shape bs_vis priv rep
  rw [heq]
  exact ⟨⟨rfl, rfl, rfl, rfl, rfl, rfl, rfl⟩, rfl⟩

/-- The `while` loop of `render_queued` run `n` times advances `read_seq` by
`n`, writes nothing but the counters, and hands the `n` slots from
`read_seq mod N` on to `render_update_vis`, in order. -/
theorem render_queued_while_spec (bs_vis : Nat → bs_vis_t) :
    ∀ (n : Nat) (priv : SlidingWindow), priv.next_report_seqno_read + n < 2 ^ 64 →
      render_frame priv (render_queued_while bs_vis n priv).1 ∧
      (render_queued_while bs_vis n priv).1.next_report_seqno_read
        = priv.next_report_seqno_read + n ∧
      (render_queued_while bs_vis n priv).2 =
        (List.range n).map
          (fun i => priv.reports ((priv.next_report_seqno_read + i) % REPORTS_LEN)) := by
  intro n
  induction n with
  | zero =>
    intro priv _
    exact ⟨⟨rfl, rfl, rfl, rfl, rfl, rfl, rfl⟩, rfl, rfl⟩
  | succ n ih =>
    intro priv hlt
    rw [render_queued_while_succ]
    have h1 : u64 (priv.next_report_seqno_read + 1) = priv.next_report_seqno_read + 1 :=
      u64_of_lt (by omega)
    obtain ⟨hfr, hrd⟩ := render_update_vis_frame bs_vis
      { priv with next_report_seqno_read := u64 (priv.next_report_seqno_read + 1) }
      (priv.next_report_seqno_read % REPORTS_LEN)
    generalize render_update_vis bs_vis
      { priv with next_report_seqno_read := u64 (priv.next_report_seqno_read + 1) }
      (priv.next_report_seqno_read % REPORTS_LEN) = s2 at hfr hrd ⊢
    have hrd2 : s2.next_report_seqno_read = priv.next_report_seqno_read + 1 := hrd.trans h1
    have hfr2 : render_frame priv s2 := hfr
    obtain ⟨ihf, ihr, iht⟩ := ih s2 (by omega)
    refine ⟨render_frame_trans hfr2 ihf, by simp only [ihr, hrd2]; omega, ?_⟩
    simp only [iht, hrd2, hfr2.2.2.2.2.2.1, List.range_succ_eq_map, List.map_cons, List.map_map,
      Nat.add_zero]
    congr 1
    apply List.map_congr_left
    intro i _
    simp only [Function.comp, Nat.succ_eq_add_one]
    congr 2
    omega

/-- Counters after the loop: each is its old value plus the number of handed
entries of its class, in `uint64_t`. -/
theorem render_queued_while_counter (bs_vis : Nat → bs_vis_t) :
    ∀ (n : Nat) (priv : SlidingWindow) (k : Nat → Nat),
      (∀ c, stat_counter priv c = u64 (k c)) →
      ∀ c, stat_counter (render_queued_while bs_vis n priv).1 c =
        u64 (k c + (((render_queued_while bs_vis n priv).2).map
          (fun e => stat_class bs_vis e.report)).count c) := by
  intro n
  induction n with
  | zero =>
    intro priv k hk c
    simpa [render_queued_while] using hk c
  | succ n ih =>
    intro priv k hk c
    rw [render_queued_while_succ]
    have hstep : ∀ c, stat_counter
        (render_update_vis bs_vis
          { priv with next_report_seqno_read := u64 (priv.next_report_seqno_read + 1) }
          (priv.next_report_seqno_read % REPORTS_LEN)) c =
        u64 (k c + if c = stat_class bs_vis
          (priv.reports (priv.next_report_seqno_read % REPORTS_LEN)).report then 1 else 0) := by
      intro c
      rw [render_update_vis_counter]
      have hkc : stat_counter
          { priv with next_report_seqno_read := u64 (priv.next_report_seqno_read + 1) } c
          = u64 (k c) := hk c
      rw [hkc]
      split_ifs
      · exact u64_u64_add _ _
      · rfl
    rw [ih _ _ hstep c]
    simp only [List.map_cons, List.count_cons, beq_iff_eq]
    congr 1
    have : (stat_class bs_vis (priv.reports (priv.next_report_seqno_read % REPORTS_LEN)).report
        = c) ↔ (c = stat_class bs_vis
          (priv.reports (priv.next_report_seqno_read % REPORTS_LEN)).report) := eq_comm
    simp only [this]
    omega

theorem u64_sub_of_le {a b : Nat} (hba : b ≤ a) (ha : a < 2 ^ 64) : u64_sub a b = a - b := by
  unfold u64_sub
  have h1 : ((a : Int) - (b : Int)) = ((a - b : Nat) : Int) := by omega
  rw [h1]
  have h2 : ((a - b : Nat) : Int) % 2 ^ 64 = ((a - b : Nat) : Int) :=
    Int.emod_eq_of_lt (by omega) (by omega)
  rw [h2]
  exact Int.toNat_ofNat _

theorem u64_to_int_of_lt {x : Nat} (h : x < 2 ^ 31) : u64_to_int x = (x : Int) := by
  unfold u64_to_int
  have hx : x % 2 ^ 32 = x := Nat.mod_eq_of_lt (by omega)
  rw [hx, if_pos h]

theorem get_queue_length_of_le (priv : SlidingWindow)
    (hrw : priv.next_report_seqno_read ≤ priv.next_report_seqno_write)
    (hw : priv.next_report_seqno_write < 2 ^ 64)
    (hq : priv.next_report_seqno_write - priv.next_report_seqno_read < 2 ^ 31) :
    get_queue_length priv
      = ((priv.next_report_seqno_write - priv.next_report_seqno_read : Nat) : Int) := by
  unfold get_queue_length
  rw [u64_sub_of_le hrw hw, u64_to_int_of_lt hq]

/-- One `render_queued` on a queue whose counters have not wrapped and which
holds fewer than `2^31` entries: it returns, `read_seq` catches up with
`write_seq`, the pending slots are handed to `render_update_vis` in order, and
each counter grows by the number of handed entries of its class. -/
theorem render_queued_ok (bs_vis : Nat → bs_vis_t) (priv : SlidingWindow)
    (hrw : priv.next_report_seqno_read ≤ priv.next_report_seqno_write)
    (hw : priv.next_report_seqno_write < 2 ^ 64)
    (hq : priv.next_report_seqno_write - priv.next_report_seqno_read < 2 ^ 31) :
    ∃ priv' seen, render_queued bs_vis priv = .ok (priv', seen) ∧
      render_frame priv priv' ∧
      priv'.next_report_seqno_read = priv.next_report_seqno_write ∧
      seen = (List.range (priv.next_report_seqno_write - priv.next_report_seqno_read)).map
        (fun i => priv.reports ((priv.next_report_seqno_read + i) % REPORTS_LEN)) ∧
      ∀ k : Nat → Nat, (∀ c, stat_counter priv c = u64 (k c)) →
        ∀ c, stat_counter priv' c =
          u64 (k c + (seen.map (fun e => stat_class bs_vis e.report)).count c) := by
  have hlen := get_queue_length_of_le priv hrw hw hq
  obtain ⟨hfr, hrd, htr⟩ := render_queued_while_spec bs_vis
    (priv.next_report_seqno_write - priv.next_report_seqno_read) priv (by omega)
  refine ⟨(render_queued_while bs_vis
      (priv.next_report_seqno_write - priv.next_report_seqno_read) priv).1,
    (render_queued_while bs_vis
      (priv.next_report_seqno_write - priv.next_report_seqno_read) priv).2, ?_, hfr,
    by rw [hrd]; omega, htr, ?_⟩
  · unfold render_queued
    simp only [hlen, Int.toNat_ofNat, render_update_stats]
    rw [if_pos (Int.ofNat_nonneg _)]
  · intro k hk c
    exact render_queued_while_counter bs_vis _ priv k hk c

/-! ## The queue invariant along a schedule -/

theorem stamp_from_getElem? : ∀ (L : List DC_BlockReport) (k i : Nat),
    (stamp_from k L)[i]? = (L[i]?).map (fun r => (⟨k + i, r⟩ : blk_report_t)) := by
  intro L
  induction L with
  | nil => intro k i; simp [stamp_from]
  | cons r rest ih =>
    intro k i
    cases i with
    | zero => simp [stamp_from]
    | succ i =>
      simp only [stamp_from, List.getElem?_cons_succ, ih]
      congr 1
      funext x
      congr 1
      omega

theorem stamp_from_length : ∀ (L : List DC_BlockReport) (k : Nat),
    (stamp_from k L).length = L.length := by
  intro L
  induction L with
  | nil => intro k; rfl
  | cons r rest ih => intro k; simp [stamp_from, ih]

theorem mod_len_ne {j w : Nat} (hjw : j < w) (hd : w - j < REPORTS_LEN) :
    j % REPORTS_LEN ≠ w % REPORTS_LEN := by
  have hN : REPORTS_LEN = 100000 := by decide
  rw [hN] at hd ⊢
  omega

theorem pending_of_le (priv : SlidingWindow)
    (hrw : priv.next_report_seqno_read ≤ priv.next_report_seqno_write)
    (hw : priv.next_report_seqno_write < 2 ^ 64) :
    pending priv = priv.next_report_seqno_write - priv.next_report_seqno_read :=
  u64_sub_of_le hrw hw

/-- A returning `HandleReport` that leaves `pending ≤ N` keeps the queue
invariant, for the list extended by the new report. -/
theorem queue_inv_HandleReport (clk : Option timespec) (priv priv' : SlidingWindow)
    (actctx : DC_ProcedureCtx) (L : List DC_BlockReport) (hinv : queue_inv priv L)
    (h : HandleReport clk priv actctx = .ok priv') (hp : pending priv' ≤ REPORTS_LEN)
    (hlen : L.length + 1 < 2 ^ 64) :
    queue_inv priv' (L ++ [actctx.report]) ∧
    priv'.next_report_seqno_read = priv.next_report_seqno_read ∧
    (∀ c, stat_counter priv' c = stat_counter priv c) := by
  obtain ⟨hw, hrw, hq, _, hslots⟩ := hinv
  obtain ⟨st, avg, eta, rfl⟩ := HandleReport_ok_shape clk priv actctx priv' h
  have hw1 : u64 (priv.next_report_seqno_write + 1) = priv.next_report_seqno_write + 1 :=
    u64_of_lt (by omega)
  have hp' : priv.next_report_seqno_write + 1 - priv.next_report_seqno_read ≤ REPORTS_LEN := by
    have := pending_of_le
      { priv with
        start_time := st
        avg_processing_speed := avg
        eta_time := eta
        cur_lba := actctx.report.lba
        reports := arr_set priv.reports (priv.next_report_seqno_write % REPORTS_LEN)
          ⟨priv.next_report_seqno_write, actctx.report⟩
        next_report_seqno_write := u64 (priv.next_report_seqno_write + 1) }
      (by simp only [hw1]; omega) (by simp only [hw1]; omega)
    rw [this] at hp
    simpa only [hw1] using hp
  refine ⟨⟨?_, ?_, ?_, ?_, ?_⟩, rfl, fun c => rfl⟩
  · show u64 (priv.next_report_seqno_write + 1) = _
    rw [hw1, hw]
    simp
  · show priv.next_report_seqno_read ≤ u64 (priv.next_report_seqno_write + 1)
    rw [hw1]
    omega
  · show u64 (priv.next_report_seqno_write + 1) - priv.next_report_seqno_read ≤ _
    rw [hw1]
    exact hp'
  · simpa using hlen
  · intro j r hj hjr
    have hj' : priv.next_report_seqno_read ≤ j := hj
    simp only [arr_set]
    by_cases hjL : j < L.length
    · rw [List.getElem?_append_left hjL] at hjr
      have hne : j % REPORTS_LEN ≠ priv.next_report_seqno_write % REPORTS_LEN :=
        mod_len_ne (by omega) (by omega)
      rw [if_neg hne]
      exact hslots j r hj hjr
    · rw [List.getElem?_append_right (by omega)] at hjr
      have hj0 : j = L.length := by
        by_contra hne
        have : j - L.length ≠ 0 := by omega
        obtain ⟨m, hm⟩ := Nat.exists_eq_succ_of_ne_zero this
        rw [hm] at hjr
        simp at hjr
      subst hj0
      simp only [Nat.sub_self, List.getElem?_cons_zero, Option.some.injEq] at hjr
      subst hjr
      rw [hw, if_pos rfl]

theorem reports_len_lt : REPORTS_LEN < 2 ^ 31 := by decide

/-- Under the queue invariant `render_queued` returns, keeps the invariant,
catches `read_seq` up with `write_seq`, hands over exactly the unread stamped
reports in order, and counts each in its class. -/
theorem queue_inv_render_queued (bs_vis : Nat → bs_vis_t) (priv : SlidingWindow)
    (L : List DC_BlockReport) (hinv : queue_inv priv L) :
    ∃ priv' seen, render_queued bs_vis priv = .ok (priv', seen) ∧
      queue_inv priv' L ∧
      priv'.next_report_seqno_read = priv.next_report_seqno_write ∧
      seen = (stamp_from 0 L).drop priv.next_report_seqno_read ∧
      ∀ k : Nat → Nat, (∀ c, stat_counter priv c = u64 (k c)) →
        ∀ c, stat_counter priv' c = u64 (k c + (classes bs_vis seen).count c) := by
  obtain ⟨hw, hrw, hq, hlen, hslots⟩ := hinv
  have hlt := reports_len_lt
  obtain ⟨priv', seen, hrun, hfr, hrd, hseen, hcnt⟩ :=
    render_queued_ok bs_vis priv hrw (by omega) (by omega)
  obtain ⟨_, _, _, _, _, hreports, hwrite⟩ := hfr
  refine ⟨priv', seen, hrun, ⟨by rw [hwrite, hw], by rw [hrd, hwrite], by rw [hrd, hwrite]; omega,
    hlen, ?_⟩, hrd, ?_, hcnt⟩
  · intro j r hj hjr
    rw [hreports]
    exact hslots j r (by rw [hrd] at hj; omega) hjr
  · rw [hseen]
    apply List.ext_getElem?
    intro i
    rw [List.getElem?_map, List.getElem?_drop, stamp_from_getElem?]
    by_cases hi : i < priv.next_report_seqno_write - priv.next_report_seqno_read
    · rw [List.getElem?_range hi]
      have hiL : priv.next_report_seqno_read + i < L.length := by omega
      rw [List.getElem?_eq_getElem hiL]
      simp only [Option.map_some', Nat.zero_add]
      congr 1
      exact hslots _ _ (by omega) (List.getElem?_eq_getElem hiL)
    · have h1 : (List.range (priv.next_report_seqno_write - priv.next_report_seqno_read))[i]?
          = none := List.getElem?_eq_none (by simpa using Nat.le_of_not_lt hi)
      have h2 : L[priv.next_report_seqno_read + i]? = none :=
        List.getElem?_eq_none (by omega)
      rw [h1, h2]
      rfl

theorem stamp_from_append : ∀ (L M : List DC_BlockReport) (k : Nat),
    stamp_from k (L ++ M) = stamp_from k L ++ stamp_from (k + L.length) M := by
  intro L
  induction L with
  | nil => intro M k; simp [stamp_from]
  | cons r rest ih =>
    intro M k
    show (⟨k, r⟩ : blk_report_t) :: stamp_from (k + 1) (rest ++ M) = _
    rw [ih, show k + 1 + rest.length = k + (r :: rest).length by simp; omega]
    rfl

theorem pending_bounded_head (bs_vis : Nat → bs_vis_t) (steps : List Step)
    (priv : SlidingWindow) (h : pending_bounded bs_vis steps priv = true) :
    pending priv ≤ REPORTS_LEN := by
  cases steps with
  | nil => simpa [pending_bounded] using h
  | cons st rest =>
    simp only [pending_bounded, Bool.and_eq_true, decide_eq_true_eq] at h
    exact h.1

theorem classes_append (bs_vis : Nat → bs_vis_t) (a b : List blk_report_t) :
    classes bs_vis (a ++ b) = classes bs_vis a ++ classes bs_vis b := by
  simp [classes]

/-- The queue invariant, the FIFO content of the handed entries and the
counter values hold along every schedule that keeps `pending ≤ N` and
enqueues fewer than `2^64` reports. -/
theorem exec_queue_inv (bs_vis : Nat → bs_vis_t) :
    ∀ (steps : List Step) (priv : SlidingWindow) (L : List DC_BlockReport)
      (seen0 : List blk_report_t),
      queue_inv priv L →
      seen0 = (stamp_from 0 L).take priv.next_report_seqno_read →
      pending_bounded bs_vis steps priv = true →
      (L ++ enqueued steps).length < 2 ^ 64 →
      ∀ priv' seen, exec bs_vis steps priv = .ok (priv', seen) →
        queue_inv priv' (L ++ enqueued steps) ∧
        seen0 ++ seen =
          (stamp_from 0 (L ++ enqueued steps)).take priv'.next_report_seqno_read ∧
        (∀ k : Nat → Nat, (∀ c, stat_counter priv c = u64 (k c)) →
          ∀ c, stat_counter priv' c = u64 (k c + (classes bs_vis seen).count c)) := by
  intro steps
  induction steps with
  | nil =>
    intro priv L seen0 hinv hseen _ _ priv' seen hexec
    simp only [exec, Except.ok.injEq, Prod.mk.injEq] at hexec
    obtain ⟨rfl, rfl⟩ := hexec
    simp only [enqueued, List.append_nil]
    exact ⟨hinv, hseen, fun k hk c => by simpa [classes] using hk c⟩
  | cons st rest ih =>
    intro priv L seen0 hinv hseen hb hlen priv' seen hexec
    cases st with
    | handle_report clk actctx =>
      simp only [exec, exec_step] at hexec
      simp only [pending_bounded, exec_step, Bool.and_eq_true, decide_eq_true_eq] at hb
      cases hH : HandleReport clk priv actctx with
      | error e => rw [hH] at hexec; simp at hexec
      | ok p1 =>
        rw [hH] at hexec hb
        simp only at hexec hb
        have hlen' : ((L ++ [actctx.report]) ++ enqueued rest).length < 2 ^ 64 := by
          simpa [enqueued] using hlen
        have hlen1 : L.length + 1 < 2 ^ 64 := by
          simp only [List.length_append, List.length_singleton] at hlen'
          omega
        obtain ⟨hinv1, hrd1, hc1⟩ := queue_inv_HandleReport clk priv p1 actctx L hinv hH
          (pending_bounded_head bs_vis rest p1 hb.2) hlen1
        have hseen1 : seen0 =
            (stamp_from 0 (L ++ [actctx.report])).take p1.next_report_seqno_read := by
          rw [hrd1, stamp_from_append,
            List.take_append_of_le_length
              (by rw [stamp_from_length]; have := hinv.1; have := hinv.2.1; omega)]
          exact hseen
        cases hE : exec bs_vis rest p1 with
        | error e => rw [hE] at hexec; simp at hexec
        | ok res =>
          obtain ⟨p2, seen2⟩ := res
          rw [hE] at hexec
          simp only [Except.ok.injEq, Prod.mk.injEq, List.nil_append] at hexec
          obtain ⟨rfl, rfl⟩ := hexec
          obtain ⟨g1, g2, g3⟩ := ih p1 (L ++ [actctx.report]) seen0 hinv1 hseen1 hb.2 hlen'
            p2 seen2 hE
          refine ⟨by simpa [enqueued] using g1, by simpa [enqueued] using g2, ?_⟩
          intro k hk c
          exact g3 k (fun c => (hc1 c).trans (hk c)) c
    | render_queued =>
      simp only [exec, exec_step] at hexec
      simp only [pending_bounded, exec_step, Bool.and_eq_true, decide_eq_true_eq] at hb
      obtain ⟨p1, seen1, hR, hinv1, hrd1, hs1, hc1⟩ := queue_inv_render_queued bs_vis priv L hinv
      rw [hR] at hexec hb
      simp only at hexec hb
      have hseen1 : seen0 ++ seen1 = (stamp_from 0 L).take p1.next_report_seqno_read := by
        rw [hseen, hs1, List.take_append_drop, hrd1, hinv.1]
        exact (List.take_of_length_le (by rw [stamp_from_length])).symm
      cases hE : exec bs_vis rest p1 with
      | error e => rw [hE] at hexec; simp at hexec
      | ok res =>
        obtain ⟨p2, seen2⟩ := res
        rw [hE] at hexec
        simp only [Except.ok.injEq, Prod.mk.injEq] at hexec
        obtain ⟨rfl, rfl⟩ := hexec
        obtain ⟨g1, g2, g3⟩ := ih p1 L (seen0 ++ seen1) hinv1 hseen1 hb.2
          (by simpa [enqueued] using hlen) p2 seen2 hE
        refine ⟨by simpa [enqueued] using g1,
          by simpa [enqueued, List.append_assoc] using g2, ?_⟩
        intro k hk c
        rw [g3 (fun c => k c + (classes bs_vis seen1).count c) (hc1 k hk) c, classes_append,
          List.count_append, Nat.add_assoc]

theorem queue_inv_init (priv : SlidingWindow) (hw0 : priv.next_report_seqno_write = 0)
    (hr0 : priv.next_report_seqno_read = 0) : queue_inv priv [] := by
  refine ⟨by simpa using hw0, by omega, by omega, by simp, ?_⟩
  intro j r _ hjr
  simp at hjr

/-- C1. FIFO delivery: start with `write_seq = read_seq = 0` and run any
schedule of `HandleReport` and `render_queued` calls in which `pending` never
exceeds `N = 100000` (and which enqueues fewer than `2^64` reports, so that
the 64-bit counters do not wrap). Then the entries handed to
`render_update_vis` are the first `read_seq` enqueued reports in enqueue
order, the `i`-th of them stamped with `seqno = i`; `write_seq` is the number
of enqueued reports; and when the schedule ends drained (`read_seq =
write_seq`) every enqueued report has been handed over exactly once. -/
theorem C1_fifo_delivery (bs_vis : Nat → bs_vis_t) (steps : List Step)
    (priv0 priv' : SlidingWindow) (seen : List blk_report_t)
    (hw0 : priv0.next_report_seqno_write = 0) (hr0 : priv0.next_report_seqno_read = 0)
    (hb : pending_bounded bs_vis steps priv0 = true)
    (hcount : (enqueued steps).length < 2 ^ 64)
    (hexec : exec bs_vis steps priv0 = .ok (priv', seen)) :
    seen = (stamp_from 0 (enqueued steps)).take priv'.next_report_seqno_read ∧
    seen.length = priv'.next_report_seqno_read ∧
    (∀ (i : Nat) (e : blk_report_t), seen[i]? = some e →
      e.seqno = i ∧ (enqueued steps)[i]? = some e.report) ∧
    priv'.next_report_seqno_read ≤ priv'.next_report_seqno_write ∧
    priv'.next_report_seqno_write = (enqueued steps).length ∧
    (priv'.next_report_seqno_read = priv'.next_report_seqno_write →
      seen = stamp_from 0 (enqueued steps)) := by
  obtain ⟨hinv, hseen, _⟩ := exec_queue_inv bs_vis steps priv0 [] []
    (queue_inv_init priv0 hw0 hr0) (by simp [stamp_from]) hb (by simpa using hcount)
    priv' seen hexec
  simp only [List.nil_append] at hinv hseen
  obtain ⟨hw, hrw, _, _, _⟩ := hinv
  refine ⟨hseen, ?_, ?_, hrw, hw, ?_⟩
  · rw [hseen, List.length_take, stamp_from_length]
    omega
  · intro i e hie
    rw [hseen, List.getElem?_take] at hie
    split_ifs at hie with hi
    rw [stamp_from_getElem?] at hie
    cases hL : (enqueued steps)[i]? with
    | none => rw [hL] at hie; simp at hie
    | some r =>
      rw [hL] at hie
      simp only [Option.map_some', Option.some.injEq, Nat.zero_add] at hie
      subst hie
      exact ⟨rfl, rfl⟩
  · intro hfull
    rw [hseen]
    exact List.take_of_length_le (by rw [stamp_from_length]; omega)

/-- Witness of C1: the short schedule from the zero state delivers the three
reports in enqueue order with sequence numbers 0, 1, 2. -/
theorem C1_fifo_delivery_witness :
    pending_bounded bs_vis_default short_schedule zero_state = true ∧
    ∃ priv' seen, exec bs_vis_default short_schedule zero_state = .ok (priv', seen) ∧
      seen = [⟨0, ⟨0, 0, 100⟩⟩, ⟨1, ⟨1, 3, 100⟩⟩, ⟨2, ⟨2, 0, 100⟩⟩] :=
  ⟨by decide, _, _, rfl,
    ((C1_fifo_delivery bs_vis_default short_schedule zero_state _ _ rfl rfl (by decide)
      (by decide) rfl).2.2.2.2.2 (by decide)).trans (by decide)⟩

/-! ## Counter accounting -/

theorem count_classes_stamp (bs_vis : Nat → bs_vis_t) (c : Nat) :
    ∀ (L : List DC_BlockReport) (k : Nat),
      (classes bs_vis (stamp_from k L)).count c
        = L.countP (fun r => decide (stat_class bs_vis r = c)) := by
  intro L
  induction L with
  | nil => intro k; rfl
  | cons r rest ih =>
    intro k
    simp only [stamp_from, classes, List.map_cons, List.count_cons, List.countP_cons,
      beq_iff_eq, decide_eq_true_eq]
    have := ih (k + 1)
    simp only [classes] at this
    rw [this]

theorem countP_class_error (bs_vis : Nat → bs_vis_t) (k : Nat) (hk : 1 ≤ k)
    (L : List DC_BlockReport) :
    L.countP (fun r => decide (stat_class bs_vis r = 5 + k))
      = L.countP (fun r => decide (r.blk_status.val = k)) := by
  apply List.countP_congr
  intro r _
  have hb := latency_bucket_le bs_vis r.blk_access_time
  simp only [stat_class, decide_eq_true_eq]
  split_ifs with h0 <;> constructor <;> intro h <;> omega

theorem countP_class_ok (bs_vis : Nat → bs_vis_t) (L : List DC_BlockReport) :
    L.countP (fun r => decide (stat_class bs_vis r = 0)) +
      L.countP (fun r => decide (stat_class bs_vis r = 1)) +
      L.countP (fun r => decide (stat_class bs_vis r = 2)) +
      L.countP (fun r => decide (stat_class bs_vis r = 3)) +
      L.countP (fun r => decide (stat_class bs_vis r = 4)) +
      L.countP (fun r => decide (stat_class bs_vis r = 5))
      = L.countP (fun r => decide (r.blk_status.val = 0)) := by
  induction L with
  | nil => rfl
  | cons r rest ih =>
    simp only [List.countP_cons, decide_eq_true_eq]
    rw [← ih]
    have hb := latency_bucket_le bs_vis r.blk_access_time
    by_cases h0 : r.blk_status.val = 0
    · have hc : stat_class bs_vis r = latency_bucket bs_vis r.blk_access_time := by
        simp [stat_class, h0]
      rw [hc]
      simp only [h0, if_true]
      generalize latency_bucket bs_vis r.blk_access_time = b at hb
      interval_cases b <;> simp <;> omega
    · have hc : stat_class bs_vis r = 5 + r.blk_status.val := by
        simp [stat_class, h0]
      rw [hc]
      simp only [h0, if_false]
      have e0 : ¬ (5 + r.blk_status.val = 0) := by omega
      have e1 : ¬ (5 + r.blk_status.val = 1) := by omega
      have e2 : ¬ (5 + r.blk_status.val = 2) := by omega
      have e3 : ¬ (5 + r.blk_status.val = 3) := by omega
      have e4 : ¬ (5 + r.blk_status.val = 4) := by omega
      have e5 : ¬ (5 + r.blk_status.val = 5) := by omega
      simp only [e0, e1, e2, e3, e4, e5, if_false, Nat.add_zero]

/-- Counters of a drained schedule started with all counters zero: every
counter is the number of enqueued reports of its class. -/
theorem exec_drained_counters (bs_vis : Nat → bs_vis_t) (steps : List Step)
    (priv0 priv' : SlidingWindow) (seen : List blk_report_t)
    (hw0 : priv0.next_report_seqno_write = 0) (hr0 : priv0.next_report_seqno_read = 0)
    (hz : ∀ c, stat_counter priv0 c = 0)
    (hb : pending_bounded bs_vis steps priv0 = true)
    (hcount : (enqueued steps).length < 2 ^ 64)
    (hexec : exec bs_vis steps priv0 = .ok (priv', seen))
    (hdrained : priv'.next_report_seqno_read = priv'.next_report_seqno_write) :
    seen = stamp_from 0 (enqueued steps) ∧
    ∀ c, stat_counter priv' c
      = (enqueued steps).countP (fun r => decide (stat_class bs_vis r = c)) := by
  obtain ⟨hinv, hseen, hcnt⟩ := exec_queue_inv bs_vis steps priv0 [] []
    (queue_inv_init priv0 hw0 hr0) (by simp [stamp_from]) hb (by simpa using hcount)
    priv' seen hexec
  simp only [List.nil_append] at hinv hseen
  have hall : seen = stamp_from 0 (enqueued steps) := by
    rw [hseen]
    exact List.take_of_length_le (by rw [stamp_from_length, ← hinv.1, hdrained])
  refine ⟨hall, fun c => ?_⟩
  have h := hcnt (fun _ => 0) (fun c => by rw [hz c]; rfl) c
  rw [h, hall, count_classes_stamp, Nat.zero_add]
  exact u64_of_lt (lt_of_le_of_lt (List.countP_le_length _) hcount)

/-! ### The spec's scenario: `n` reports, then a drain -/

theorem exec_cons_ok (bs_vis : Nat → bs_vis_t) (st : Step) (rest : List Step)
    (priv p1 p2 : SlidingWindow) (s1 s2 : List blk_report_t)
    (h1 : exec_step bs_vis priv st = .ok (p1, s1)) (h2 : exec bs_vis rest p1 = .ok (p2, s2)) :
    exec bs_vis (st :: rest) priv = .ok (p2, s1 ++ s2) := by
  simp only [exec, h1, h2]

theorem pending_bounded_cons_ok (bs_vis : Nat → bs_vis_t) (st : Step) (rest : List Step)
    (priv p1 : SlidingWindow) (s1 : List blk_report_t)
    (h0 : pending priv ≤ REPORTS_LEN) (h1 : exec_step bs_vis priv st = .ok (p1, s1))
    (h2 : pending_bounded bs_vis rest p1 = true) :
    pending_bounded bs_vis (st :: rest) priv = true := by
  simp only [pending_bounded, h1, h2, Bool.and_eq_true, decide_eq_true_eq, and_true]
  exact h0

/-- A returning `HandleReport` leaves `start_time` alone, except that the
first report (`progress.num = 1`) stores the clock reading. -/
theorem HandleReport_start_time (clk : Option timespec) (priv priv' : SlidingWindow)
    (actctx : DC_ProcedureCtx) (h : HandleReport clk priv actctx = .ok priv') :
    priv'.start_time
      = if actctx.progress.num = 1 then clk.getD priv.start_time else priv.start_time := by
  unfold HandleReport at h
  cases hs : HandleReport_speed_eta clk priv actctx with
  | error e => rw [hs] at h; simp at h
  | ok p1 =>
    rw [hs] at h
    simp only [Except.ok.injEq] at h
    subst h
    rw [HandleReport_enqueue_eq]
    show p1.start_time = _
    unfold HandleReport_speed_eta at hs
    simp only at hs
    split_ifs at hs with h1 h10 <;> (try cases clk) <;> (try simp at hs) <;>
      (try split_ifs at hs) <;> (try simp at hs) <;> subst hs <;> simp [h1]

/-- Reports that all return (for the start time `st`, which a first report
re-stores) and fit into the free part of the queue, followed by one drain:
the schedule keeps `pending ≤ N`, returns, and ends drained. -/
theorem calls_then_drain_runs (bs_vis : Nat → bs_vis_t) :
    ∀ (calls : List (Option timespec × DC_ProcedureCtx)) (priv : SlidingWindow)
      (L : List DC_BlockReport) (st : timespec), queue_inv priv L → priv.start_time = st →
      priv.next_report_seqno_write - priv.next_report_seqno_read + calls.length ≤ REPORTS_LEN →
      L.length + calls.length < 2 ^ 64 →
      (∀ c ∈ calls, HandleReport_returns c.1 st c.2 = true ∧
        (c.2.progress.num = 1 → c.1 = some st)) →
      pending_bounded bs_vis (handle_report_calls calls ++ [Step.render_queued]) priv = true ∧
      ∃ priv' seen,
        exec bs_vis (handle_report_calls calls ++ [Step.render_queued]) priv
          = .ok (priv', seen) ∧
        priv'.next_report_seqno_read = priv'.next_report_seqno_write := by
  intro calls
  induction calls with
  | nil =>
    intro priv L st hinv _ _ _ _
    have hp : pending priv ≤ REPORTS_LEN := by
      rw [pending_of_le priv hinv.2.1 (by rw [hinv.1]; exact hinv.2.2.2.1)]
      exact hinv.2.2.1
    obtain ⟨p1, seen, hR, hinv1, hrd, _, _⟩ := queue_inv_render_queued bs_vis priv L hinv
    have hp1 : pending p1 ≤ REPORTS_LEN := by
      rw [pending_of_le p1 hinv1.2.1 (by rw [hinv1.1]; exact hinv1.2.2.2.1)]
      exact hinv1.2.2.1
    have hstep : exec_step bs_vis priv Step.render_queued = .ok (p1, seen) := hR
    have hnil : pending_bounded bs_vis [] p1 = true := by
      simp only [pending_bounded, decide_eq_true_eq]
      exact hp1
    exact ⟨pending_bounded_cons_ok bs_vis _ _ priv p1 seen hp hstep hnil, p1, seen ++ [],
      exec_cons_ok bs_vis _ _ priv p1 p1 seen [] hstep rfl, by rw [hrd, hinv1.1, hinv.1]⟩
  | cons c rest ih =>
    intro priv L st hinv hst hfit hlen hall
    have hp : pending priv ≤ REPORTS_LEN := by
      rw [pending_of_le priv hinv.2.1 (by rw [hinv.1]; exact hinv.2.2.2.1)]
      exact hinv.2.2.1
    simp only [List.length_cons] at hfit hlen
    obtain ⟨hret, hfirst⟩ := hall c (List.mem_cons_self _ _)
    obtain ⟨p1, hH⟩ := (HandleReport_ok_iff c.1 priv c.2).mpr (by rw [hst]; exact hret)
    have hst1 : p1.start_time = st := by
      rw [HandleReport_start_time c.1 priv p1 c.2 hH]
      split_ifs with h1
      · rw [hfirst h1]; rfl
      · exact hst
    obtain ⟨st', avg, eta, hshape⟩ := HandleReport_ok_shape c.1 priv c.2 p1 hH
    have hw1 : u64 (priv.next_report_seqno_write + 1) = priv.next_report_seqno_write + 1 :=
      u64_of_lt (by rw [hinv.1]; omega)
    have hwp : p1.next_report_seqno_write = priv.next_report_seqno_write + 1 := by
      rw [hshape]; exact hw1
    have hrp : p1.next_report_seqno_read = priv.next_report_seqno_read := by
      rw [hshape]
    have hrw := hinv.2.1
    have hpend : pending p1 ≤ REPORTS_LEN := by
      rw [pending_of_le p1 (by rw [hwp, hrp]; omega) (by rw [hwp, hinv.1]; omega), hwp, hrp]
      omega
    obtain ⟨hinv1, _, _⟩ := queue_inv_HandleReport c.1 priv p1 c.2 L hinv hH hpend (by omega)
    obtain ⟨hb', p', seen, hexec', hdr⟩ := ih p1 (L ++ [c.2.report]) st hinv1 hst1
      (by rw [hwp, hrp]; omega)
      (by simp only [List.length_append, List.length_singleton]; omega)
      (fun c' hc' => hall c' (List.mem_cons_of_mem _ hc'))
    have hstep : exec_step bs_vis priv (Step.handle_report c.1 c.2) = .ok (p1, []) := by
      simp only [exec_step, hH]
    exact ⟨pending_bounded_cons_ok bs_vis _ _ priv p1 [] hp hstep hb', p', seen,
      exec_cons_ok bs_vis _ _ priv p1 p' [] seen hstep hexec', hdr⟩

/-- C3. Counter accounting: start with `write_seq = read_seq = 0` and all
counters zero, run any schedule of `HandleReport` and `render_queued` calls
that keeps `pending ≤ N` (fewer than `2^64` reports, status in `0..5` by the
type of the report) and ends drained. Then `error_stats_accum[k]` is the
number of enqueued reports with status `k`, for each `k` in `1..5`, and the
six `access_time_stats_accum` counters sum to the number of enqueued reports
with status OK. -/
theorem C3_counter_accounting (bs_vis : Nat → bs_vis_t) (steps : List Step)
    (priv0 priv' : SlidingWindow) (seen : List blk_report_t)
    (hw0 : priv0.next_report_seqno_write = 0) (hr0 : priv0.next_report_seqno_read = 0)
    (hz1 : ∀ i, priv0.access_time_stats_accum i = 0)
    (hz2 : ∀ k, priv0.error_stats_accum k = 0)
    (hb : pending_bounded bs_vis steps priv0 = true)
    (hcount : (enqueued steps).length < 2 ^ 64)
    (hexec : exec bs_vis steps priv0 = .ok (priv', seen))
    (hdrained : priv'.next_report_seqno_read = priv'.next_report_seqno_write) :
    (∀ k, 1 ≤ k → k ≤ 5 →
      priv'.error_stats_accum k
        = (enqueued steps).countP (fun r => decide (r.blk_status.val = k))) ∧
    access_time_stats_total priv'
      = (enqueued steps).countP (fun r => decide (r.blk_status.val = 0)) := by
  have hz : ∀ c, stat_counter priv0 c = 0 := by
    intro c
    unfold stat_counter
    split_ifs
    · exact hz1 c
    · exact hz2 _
  obtain ⟨_, hc⟩ := exec_drained_counters bs_vis steps priv0 priv' seen hw0 hr0 hz hb hcount
    hexec hdrained
  constructor
  · intro k hk1 _
    have h := hc (5 + k)
    rw [countP_class_error bs_vis k hk1] at h
    rw [← h]
    unfold stat_counter
    rw [if_neg (by omega)]
    congr 1
    omega
  · rw [← countP_class_ok bs_vis, ← hc 0, ← hc 1, ← hc 2, ← hc 3, ← hc 4, ← hc 5]
    rfl

/-- Witness of C3: the spec's scenario, a 1,000,000-byte device and reports
for `lba = 1..2000`, alternately OK and error, then a drain: 1000 errors (of
kind 1) and a histogram total of 1000. -/
theorem C3_counter_accounting_witness :
    pending_bounded bs_vis_default (scenario 2000) zero_state = true ∧
    ∃ priv' seen, exec bs_vis_default (scenario 2000) zero_state = .ok (priv', seen) ∧
      priv'.next_report_seqno_read = priv'.next_report_seqno_write ∧
      priv'.error_stats_accum 1 = 1000 ∧ access_time_stats_total priv' = 1000 :=
  have hrun := calls_then_drain_runs bs_vis_default (scenario_calls 2000) zero_state []
    ⟨0, 0⟩ (queue_inv_init zero_state rfl rfl) rfl (by decide!) (by decide!) (by decide!)
  ⟨hrun.1, hrun.2.elim fun priv' h => h.elim fun seen hs =>
    have hc := C3_counter_accounting bs_vis_default (scenario 2000) zero_state priv' seen
      rfl rfl (fun _ => rfl) (fun _ => rfl) hrun.1 (by decide!) hs.1 hs.2
    ⟨priv', seen, hs.1, hs.2, (hc.1 1 (by decide) (by decide)).trans (by decide!),
      hc.2.trans (by decide!)⟩⟩

/-! ## The final drain -/

theorem render_thread_run_returned (bs_vis : Nat → bs_vis_t) :
    ∀ (n : Nat) (t : render_thread), t.pc = render_pc.returned →
      render_thread_run bs_vis n t = .ok t := by
  intro n
  induction n with
  | zero => intro t _; rfl
  | succ n ih =>
    intro t ht
    have hstep : render_thread_step bs_vis t = .ok t := by
      unfold render_thread_step
      rw [ht]
    simp only [render_thread_run, hstep]
    exact ih t ht

theorem queue_inv_Close_order_hangup (priv : SlidingWindow) (L : List DC_BlockReport)
    (h : queue_inv priv L) : queue_inv (Close_order_hangup priv) L := h

theorem countP_status_total (L : List DC_BlockReport) :
    L.countP (fun r => decide (r.blk_status.val = 0)) +
      L.countP (fun r => decide (r.blk_status.val = 1)) +
      L.countP (fun r => decide (r.blk_status.val = 2)) +
      L.countP (fun r => decide (r.blk_status.val = 3)) +
      L.countP (fun r => decide (r.blk_status.val = 4)) +
      L.countP (fun r => decide (r.blk_status.val = 5)) = L.length := by
  induction L with
  | nil => rfl
  | cons r rest ih =>
    simp only [List.countP_cons, decide_eq_true_eq, List.length_cons]
    rw [← ih]
    have hlt := r.blk_status.isLt
    generalize r.blk_status.val = v at hlt
    interval_cases v <;> simp <;> omega

/-- After the hangup is observed: two steps of the render thread from the
loop test, on a state with the flag set and the queue invariant, end in
`returned` after one `render_queued`, with the queue drained, the unread
entries handed over in order, and each counted in its class. -/
theorem render_thread_final_drain (bs_vis : Nat → bs_vis_t) (priv : SlidingWindow)
    (L : List DC_BlockReport) (seen0 : List blk_report_t) (calls : Nat)
    (hinv : queue_inv priv L) (hh : priv.order_hangup ≠ 0) :
    ∃ priv' seen,
      render_thread_step bs_vis ⟨render_pc.loop_test, priv, seen0, calls⟩
        = .ok ⟨render_pc.last_render, priv, seen0, calls⟩ ∧
      render_queued bs_vis priv = .ok (priv', seen) ∧
      (∀ n, 2 ≤ n → render_thread_run bs_vis n ⟨render_pc.loop_test, priv, seen0, calls⟩
        = .ok ⟨render_pc.returned, priv', seen0 ++ seen, calls + 1⟩) ∧
      queue_inv priv' L ∧
      priv'.next_report_seqno_read = priv'.next_report_seqno_write ∧
      seen = (stamp_from 0 L).drop priv.next_report_seqno_read ∧
      ∀ k : Nat → Nat, (∀ c, stat_counter priv c = u64 (k c)) →
        ∀ c, stat_counter priv' c = u64 (k c + (classes bs_vis seen).count c) := by
  obtain ⟨priv', seen, hR, hinv', hrd, hseen, hcnt⟩ := queue_inv_render_queued bs_vis priv L hinv
  have h1 : render_thread_step bs_vis ⟨render_pc.loop_test, priv, seen0, calls⟩
      = .ok ⟨render_pc.last_render, priv, seen0, calls⟩ := by
    simp only [render_thread_step, if_neg hh]
  have h2 : render_thread_step bs_vis ⟨render_pc.last_render, priv, seen0, calls⟩
      = .ok ⟨render_pc.returned, priv', seen0 ++ seen, calls + 1⟩ := by
    simp only [render_thread_step, hR]
  refine ⟨priv', seen, h1, hR, ?_, hinv', ?_, hseen, hcnt⟩
  · intro n hn
    obtain ⟨m, rfl⟩ : ∃ m, n = m + 1 + 1 := ⟨n - 2, by omega⟩
    simp only [render_thread_run, h1, h2]
    exact render_thread_run_returned bs_vis m _ rfl
  · rw [hrd]
    exact hinv'.1.trans hinv.1.symm ▸ rfl

/-- C7. Final drain on shutdown. Let the two threads run any schedule of
`HandleReport` and (loop-body) `render_queued` calls from `write_seq =
read_seq = 0` and zero counters, with `pending ≤ N` throughout and fewer than
`2^64` reports; then `Close` sets `order_hangup` and joins. From the loop test
the render thread observes the flag, moves to the `render_queued` after the
loop, makes exactly one more `render_queued` call and returns (any number of
steps `≥ 2` ends in the same returned configuration). At the return
`pending = 0`, the entries handed over during the whole run are exactly the
enqueued reports in order, every counter is the number of enqueued reports of
its class, and the eleven counters add up to the number of enqueued reports. -/
theorem C7_final_drain_on_hangup (bs_vis : Nat → bs_vis_t) (steps : List Step)
    (priv0 priv1 : SlidingWindow) (seen1 : List blk_report_t) (calls : Nat)
    (hw0 : priv0.next_report_seqno_write = 0) (hr0 : priv0.next_report_seqno_read = 0)
    (hz1 : ∀ i, priv0.access_time_stats_accum i = 0)
    (hz2 : ∀ k, priv0.error_stats_accum k = 0)
    (hb : pending_bounded bs_vis steps priv0 = true)
    (hcount : (enqueued steps).length < 2 ^ 64)
    (hexec : exec bs_vis steps priv0 = .ok (priv1, seen1)) :
    ∃ priv2 seen2,
      render_thread_step bs_vis ⟨render_pc.loop_test, Close_order_hangup priv1, seen1, calls⟩
        = .ok ⟨render_pc.last_render, Close_order_hangup priv1, seen1, calls⟩ ∧
      render_queued bs_vis (Close_order_hangup priv1) = .ok (priv2, seen2) ∧
      (∀ n, 2 ≤ n →
        render_thread_run bs_vis n ⟨render_pc.loop_test, Close_order_hangup priv1, seen1, calls⟩
          = .ok ⟨render_pc.returned, priv2, seen1 ++ seen2, calls + 1⟩) ∧
      pending priv2 = 0 ∧
      priv2.next_report_seqno_read = priv2.next_report_seqno_write ∧
      seen1 ++ seen2 = stamp_from 0 (enqueued steps) ∧
      (∀ c, stat_counter priv2 c
        = (enqueued steps).countP (fun r => decide (stat_class bs_vis r = c))) ∧
      access_time_stats_total priv2 + priv2.error_stats_accum 1 + priv2.error_stats_accum 2 +
        priv2.error_stats_accum 3 + priv2.error_stats_accum 4 + priv2.error_stats_accum 5
        = (enqueued steps).length := by
  have hz : ∀ c, stat_counter priv0 c = 0 := by
    intro c
    unfold stat_counter
    split_ifs
    · exact hz1 c
    · exact hz2 _
  obtain ⟨hinv, hseen, hcnt⟩ := exec_queue_inv bs_vis steps priv0 [] []
    (queue_inv_init priv0 hw0 hr0) (by simp [stamp_from]) hb (by simpa using hcount)
    priv1 seen1 hexec
  simp only [List.nil_append] at hinv hseen
  have hc1 : ∀ c, stat_counter (Close_order_hangup priv1) c
      = u64 (0 + (classes bs_vis seen1).count c) :=
    hcnt (fun _ => 0) (fun c => by rw [hz c]; rfl)
  obtain ⟨priv2, seen2, hs1, hR, hrun, hinv2, hrd2, hseen2, hcnt2⟩ :=
    render_thread_final_drain bs_vis (Close_order_hangup priv1) (enqueued steps) seen1 calls
      (queue_inv_Close_order_hangup priv1 _ hinv) (by simp [Close_order_hangup])
  have hall : seen1 ++ seen2 = stamp_from 0 (enqueued steps) := by
    rw [hseen, hseen2]
    exact List.take_append_drop _ _
  have hcounters : ∀ c, stat_counter priv2 c
      = (enqueued steps).countP (fun r => decide (stat_class bs_vis r = c)) := by
    intro c
    rw [hcnt2 _ hc1 c, Nat.zero_add, ← List.count_append, ← classes_append, hall,
      count_classes_stamp]
    exact u64_of_lt (lt_of_le_of_lt (List.countP_le_length _) hcount)
  refine ⟨priv2, seen2, hs1, hR, hrun, ?_, hrd2, hall, hcounters, ?_⟩
  · rw [pending_of_le priv2 (le_of_eq hrd2) (by rw [hinv2.1]; exact hcount), hrd2, Nat.sub_self]
  · have e : ∀ k, 1 ≤ k → k ≤ 5 → priv2.error_stats_accum k
        = (enqueued steps).countP (fun r => decide (r.blk_status.val = k)) := by
      intro k hk1 _
      have h := hcounters (5 + k)
      rw [countP_class_error bs_vis k hk1] at h
      rw [← h]
      unfold stat_counter
      rw [if_neg (by omega)]
      congr 1
      omega
    have t : access_time_stats_total priv2
        = (enqueued steps).countP (fun r => decide (r.blk_status.val = 0)) := by
      rw [← countP_class_ok bs_vis, ← hcounters 0, ← hcounters 1, ← hcounters 2, ← hcounters 3,
        ← hcounters 4, ← hcounters 5]
      rfl
    rw [t, e 1 (by omega) (by omega), e 2 (by omega) (by omega), e 3 (by omega) (by omega),
      e 4 (by omega) (by omega), e 5 (by omega) (by omega)]
    exact countP_status_total _

/-- Witness of C7: after two reports, a drain and a third report, the hangup
leads to one more drain and the return, with all three reports delivered. -/
theorem C7_final_drain_on_hangup_witness :
    pending_bounded bs_vis_default unread_schedule zero_state = true ∧
    ∃ priv1 seen1 priv2 seen2,
      exec bs_vis_default unread_schedule zero_state = .ok (priv1, seen1) ∧
      pending priv1 = 1 ∧
      render_thread_run bs_vis_default 2
          ⟨render_pc.loop_test, Close_order_hangup priv1, seen1, 1⟩
        = .ok ⟨render_pc.returned, priv2, seen1 ++ seen2, 2⟩ ∧
      pending priv2 = 0 ∧
      seen1 ++ seen2 = stamp_from 0 (enqueued unread_schedule) :=
  ⟨by decide, _, _,
    (C7_final_drain_on_hangup bs_vis_default unread_schedule zero_state _ _ 1 rfl rfl
      (fun _ => rfl) (fun _ => rfl) (by decide) (by decide) rfl).elim fun priv2 h =>
      h.elim fun seen2 h2 =>
        ⟨priv2, seen2, rfl, by decide, h2.2.2.1 2 (le_refl 2), h2.2.2.2.1, h2.2.2.2.2.2.1⟩⟩

/-! ## Consumer step, queue length, error counting -/

/-- C11. Consumer step contract: from a state with `read_seq = r`,
`blk_rep_read` returns the slot `r mod 100000` and leaves `read_seq` at
`r + 1` in `uint64_t` (so `r + 1` unless `r = 2^64 - 1`), with `write_seq`,
the contents of every slot and all other fields as they were. -/
theorem C11_consumer_step (priv : SlidingWindow) :
    (blk_rep_read priv).2 = priv.next_report_seqno_read % REPORTS_LEN ∧
    (blk_rep_read priv).2 = blk_rep_get_unread priv ∧
    (blk_rep_read priv).2 < REPORTS_LEN ∧
    (blk_rep_read priv).1.next_report_seqno_read = u64 (priv.next_report_seqno_read + 1) ∧
    (priv.next_report_seqno_read + 1 < 2 ^ 64 →
      (blk_rep_read priv).1.next_report_seqno_read = priv.next_report_seqno_read + 1) ∧
    (blk_rep_read priv).1.next_report_seqno_write = priv.next_report_seqno_write ∧
    (blk_rep_read priv).1.reports = priv.reports ∧
    (blk_rep_read priv).1 =
      { priv with next_report_seqno_read := u64 (priv.next_report_seqno_read + 1) } := by
  refine ⟨rfl, rfl, ?_, rfl, fun h => u64_of_lt h, rfl, rfl, rfl⟩
  exact Nat.mod_lt _ (by decide)

/-- Witness of C11: reading from the full queue (`read_seq = 0`) yields slot
0 and leaves `read_seq = 1`. -/
theorem C11_consumer_step_witness :
    (blk_rep_read full_state).2 = 0 ∧
    (blk_rep_read full_state).1.next_report_seqno_read = 1 :=
  ⟨(C11_consumer_step full_state).1,
    (C11_consumer_step full_state).2.2.2.2.1 (by decide)⟩

theorem get_queue_length_signed (priv : SlidingWindow)
    (hlo : -(2 ^ 31 : Int)
      ≤ (priv.next_report_seqno_write : Int) - (priv.next_report_seqno_read : Int))
    (hhi : (priv.next_report_seqno_write : Int) - (priv.next_report_seqno_read : Int)
      < 2 ^ 31) :
    get_queue_length priv
      = (priv.next_report_seqno_write : Int) - (priv.next_report_seqno_read : Int) := by
  unfold get_queue_length u64_sub u64_to_int
  generalize priv.next_report_seqno_write = w at *
  generalize priv.next_report_seqno_read = r at *
  norm_num at *
  split_ifs <;> omega

/-- C12, as stated, fails: with `write_seq = 2^31` and `read_seq = 0` (both
valid `uint64_t` values) `get_queue_length` returns `-2147483648`, which is
not `write_seq - read_seq = 2147483648`. -/
theorem C12_counterexample :
    get_queue_length far_ahead_state = -2147483648 ∧
    get_queue_length far_ahead_state
      ≠ (far_ahead_state.next_report_seqno_write : Int)
        - (far_ahead_state.next_report_seqno_read : Int) := by
  decide

/-- C12, amended. `get_queue_length` returns the `uint64_t` difference of the
counters converted to a 32-bit `int`; whenever the difference
`write_seq - read_seq` lies in `[-2^31, 2^31)` that is exactly
`write_seq - read_seq`, and in particular it is the number of unconsumed
entries whenever `read_seq ≤ write_seq` and that number is below `2^31`
(as it is while `pending ≤ N`). -/
theorem C12_get_queue_length_in_int_range (priv : SlidingWindow) :
    get_queue_length priv
      = u64_to_int (u64_sub priv.next_report_seqno_write priv.next_report_seqno_read) ∧
    (-(2 ^ 31 : Int)
        ≤ (priv.next_report_seqno_write : Int) - (priv.next_report_seqno_read : Int) →
      (priv.next_report_seqno_write : Int) - (priv.next_report_seqno_read : Int) < 2 ^ 31 →
      get_queue_length priv
        = (priv.next_report_seqno_write : Int) - (priv.next_report_seqno_read : Int)) ∧
    (priv.next_report_seqno_read ≤ priv.next_report_seqno_write →
      priv.next_report_seqno_write - priv.next_report_seqno_read < 2 ^ 31 →
      get_queue_length priv
        = ((priv.next_report_seqno_write - priv.next_report_seqno_read : Nat) : Int)) := by
  refine ⟨rfl, get_queue_length_signed priv, fun hrw hq => ?_⟩
  rw [get_queue_length_signed priv (by omega) (by omega)]
  omega

/-- Witness of C12 (amended): the full queue, `write_seq = 100000` and
`read_seq = 0`, has queue length 100000. -/
theorem C12_get_queue_length_in_int_range_witness :
    full_state.next_report_seqno_read ≤ full_state.next_report_seqno_write ∧
    full_state.next_report_seqno_write - full_state.next_report_seqno_read < 2 ^ 31 ∧
    get_queue_length full_state = 100000 :=
  ⟨by decide, by decide,
    ((C12_get_queue_length_in_int_range full_state).2.2 (by decide) (by decide)).trans
      (by decide)⟩

/-- C14. Error counting: for a consumed report with status `k` in `1..5`,
`render_update_vis` adds one, in `uint64_t`, to `error_stats_accum[k]` (so
exactly one unless the counter stands at `2^64 - 1`), leaves every other error
counter and all six latency histogram counters as they were, and the outcome
does not depend on the report's access time. -/
theorem C14_error_counting (bs_vis : Nat → bs_vis_t) (priv : SlidingWindow) (rep : Nat)
    (hk : (priv.reports rep).report.blk_status ≠ 0) :
    1 ≤ (priv.reports rep).report.blk_status.val ∧
    (priv.reports rep).report.blk_status.val ≤ 5 ∧
    (render_update_vis bs_vis priv rep).error_stats_accum
        (priv.reports rep).report.blk_status.val
      = u64 (priv.error_stats_accum (priv.reports rep).report.blk_status.val + 1) ∧
    (priv.error_stats_accum (priv.reports rep).report.blk_status.val + 1 < 2 ^ 64 →
      (render_update_vis bs_vis priv rep).error_stats_accum
          (priv.reports rep).report.blk_status.val
        = priv.error_stats_accum (priv.reports rep).report.blk_status.val + 1) ∧
    (∀ j, j ≠ (priv.reports rep).report.blk_status.val →
      (render_update_vis bs_vis priv rep).error_stats_accum j = priv.error_stats_accum j) ∧
    (render_update_vis bs_vis priv rep).access_time_stats_accum
      = priv.access_time_stats_accum ∧
    ∀ t : Nat,
      (render_update_vis bs_vis
          { priv with
            reports := arr_set priv.reports rep
              { priv.reports rep with
                report := { (priv.reports rep).report with blk_access_time := t } } }
          rep).error_stats_accum
        = (render_update_vis bs_vis priv rep).error_stats_accum ∧
      (render_update_vis bs_vis
          { priv with
            reports := arr_set priv.reports rep
              { priv.reports rep with
                report := { (priv.reports rep).report with blk_access_time := t } } }
          rep).access_time_stats_accum
        = (render_update_vis bs_vis priv rep).access_time_stats_accum := by
  have hv : (priv.reports rep).report.blk_status.val ≠ 0 := fun hv => hk (Fin.ext hv)
  have hlt := (priv.reports rep).report.blk_status.isLt
  have hupd : render_update_vis bs_vis priv rep =
      { priv with
        error_stats_accum :=
          arr_set priv.error_stats_accum (priv.reports rep).report.blk_status.val
            (u64 (priv.error_stats_accum (priv.reports rep).report.blk_status.val + 1)) } := by
    unfold render_update_vis
    simp only [hv, ne_eq, not_false_eq_true, if_true]
  have hself : (render_update_vis bs_vis priv rep).error_stats_accum
      (priv.reports rep).report.blk_status.val
      = u64 (priv.error_stats_accum (priv.reports rep).report.blk_status.val + 1) := by
    rw [hupd]
    simp [arr_set]
  refine ⟨by omega, by omega, hself, fun h => by rw [hself, u64_of_lt h], ?_, by rw [hupd], ?_⟩
  · intro j hj
    rw [hupd]
    simp only [arr_set, if_neg hj]
  · intro t
    rw [hupd]
    unfold render_update_vis
    simp only [arr_set, if_true, hv, ne_eq, not_false_eq_true, and_self]

/-- Witness of C14: a report with error status 3 raises `error_stats_accum[3]`
from 0 to 1. -/
theorem C14_error_counting_witness :
    (error_state.reports 0).report.blk_status ≠ 0 ∧
    (render_update_vis bs_vis_default error_state 0).error_stats_accum 3 = 1 :=
  ⟨by decide, (C14_error_counting bs_vis_default error_state 0 (by decide)).2.2.2.1 (by decide)⟩

/-! ## `render_queued` without a bound on the queue -/

/-- Steps of the `while` loop in general: `read_seq` does not go down, and
nothing but `read_seq` and the counters is written. -/
theorem render_queued_while_frame (bs_vis : Nat → bs_vis_t) :
    ∀ (n : Nat) (priv : SlidingWindow),
      render_frame priv (render_queued_while bs_vis n priv).1 := by
  intro n
  induction n with
  | zero => intro priv; exact ⟨rfl, rfl, rfl, rfl, rfl, rfl, rfl⟩
  | succ n ih =>
    intro priv
    rw [render_queued_while_succ]
    obtain ⟨hfr, _⟩ := render_update_vis_frame bs_vis
      { priv with next_report_seqno_read := u64 (priv.next_report_seqno_read + 1) }
      (priv.next_report_seqno_read % REPORTS_LEN)
    have hfr2 : render_frame priv
        (render_update_vis bs_vis
          { priv with next_report_seqno_read := u64 (priv.next_report_seqno_read + 1) }
          (priv.next_report_seqno_read % REPORTS_LEN)) := hfr
    exact render_frame_trans hfr2 (ih _)

/-- A returning `render_queued` writes nothing but `read_seq` and the
counters, whatever the state. -/
theorem render_queued_frame (bs_vis : Nat → bs_vis_t) (priv priv' : SlidingWindow)
    (seen : List blk_report_t) (h : render_queued bs_vis priv = .ok (priv', seen)) :
    render_frame priv priv' := by
  unfold render_queued at h
  simp only at h
  split_ifs at h
  simp only [render_update_stats, Except.ok.injEq, Prod.mk.injEq] at h
  rw [← h.1]
  exact render_queued_while_frame bs_vis _ priv
/-! ## Who writes the statistics fields -/

/-- C13, as stated, fails: `HandleReport` writes statistics fields. The tenth
report (block 7, one second after the start) changes `avg_processing_speed`
from 0 to 3584, `eta_time` from 0 to 278 and `cur_lba` from 0 to 7; the first
report stores its clock reading in `start_time`. -/
theorem C13_counterexample :
    (∃ priv', HandleReport (some ⟨101, 0⟩) started_state (sample_ctx 10 7 0) = .ok priv' ∧
      priv'.avg_processing_speed ≠ started_state.avg_processing_speed ∧
      priv'.eta_time ≠ started_state.eta_time ∧
      priv'.cur_lba ≠ started_state.cur_lba) ∧
    (∃ priv', HandleReport (some ⟨100, 0⟩) zero_state (sample_ctx 1 5 0) = .ok priv' ∧
      priv'.start_time ≠ zero_state.start_time) :=
  ⟨⟨_, rfl, by decide, by decide, by decide⟩, ⟨_, rfl, by decide⟩⟩

/-- C13, amended. The latency-bucket and error-kind counters have a single
writer, the render loop: a returning `HandleReport` leaves both counter arrays
unchanged. `HandleReport` itself writes `cur_lba` (every call, to the report's
`lba`) and `start_time` (only for `progress.num = 1`, to the clock reading),
besides `avg_processing_speed` and `eta_time`; and the render loop
(`render_update_vis`, and a returning `render_queued`) writes none of
`start_time`, `avg_processing_speed`, `eta_time` and `cur_lba`. -/
theorem C13_counters_single_writer (bs_vis : Nat → bs_vis_t) (priv : SlidingWindow) :
    (∀ (clk : Option timespec) (actctx : DC_ProcedureCtx) (priv' : SlidingWindow),
      HandleReport clk priv actctx = .ok priv' →
      priv'.access_time_stats_accum = priv.access_time_stats_accum ∧
      priv'.error_stats_accum = priv.error_stats_accum ∧
      priv'.cur_lba = actctx.report.lba ∧
      priv'.start_time
        = if actctx.progress.num = 1 then clk.getD priv.start_time else priv.start_time) ∧
    (∀ rep : Nat,
      (render_update_vis bs_vis priv rep).start_time = priv.start_time ∧
      (render_update_vis bs_vis priv rep).avg_processing_speed = priv.avg_processing_speed ∧
      (render_update_vis bs_vis priv rep).eta_time = priv.eta_time ∧
      (render_update_vis bs_vis priv rep).cur_lba = priv.cur_lba) ∧
    (∀ (priv' : SlidingWindow) (seen : List blk_report_t),
      render_queued bs_vis priv = .ok (priv', seen) →
      priv'.start_time = priv.start_time ∧
      priv'.avg_processing_speed = priv.avg_processing_speed ∧
      priv'.eta_time = priv.eta_time ∧
      priv'.cur_lba = priv.cur_lba) := by
  refine ⟨?_, ?_, ?_⟩
  · intro clk actctx priv' h
    have hst := HandleReport_start_time clk priv priv' actctx h
    obtain ⟨st, avg, eta, rfl⟩ := HandleReport_ok_shape clk priv actctx priv' h
    exact ⟨rfl, rfl, rfl, hst⟩
  · intro rep
    obtain ⟨⟨h1, h2, h3, h4, _⟩, _⟩ := render_update_vis_frame bs_vis priv rep
    exact ⟨h1, h2, h3, h4⟩
  · intro priv' seen h
    have hfr := render_queued_frame bs_vis priv priv' seen h
    exact ⟨hfr.1, hfr.2.1, hfr.2.2.1, hfr.2.2.2.1⟩

/-- Witness of C13 (amended): the tenth report into the started state leaves
the counters alone and sets `cur_lba = 7`. -/
theorem C13_counters_single_writer_witness :
    ∃ priv', HandleReport (some ⟨101, 0⟩) started_state (sample_ctx 10 7 0) = .ok priv' ∧
      priv'.error_stats_accum = started_state.error_stats_accum ∧
      priv'.cur_lba = 7 :=
  ⟨_, rfl,
    ((C13_counters_single_writer bs_vis_default started_state).1 (some ⟨101, 0⟩)
      (sample_ctx 10 7 0) _ rfl).2.1,
    ((C13_counters_single_writer bs_vis_default started_state).1 (some ⟨101, 0⟩)
      (sample_ctx 10 7 0) _ rfl).2.2.1⟩

/-! ## The ETA subtraction -/

theorem bytes_processed_le_capacity (actctx : DC_ProcedureCtx) :
    bytes_processed actctx ≤ actctx.dev.capacity := by
  unfold bytes_processed
  simp only
  split_ifs with h
  · exact le_refl _
  · exact Nat.le_of_not_lt h

theorem u64_le (x : Nat) : u64 x ≤ x := Nat.mod_le _ _

/-- With a speed computed from at most `capacity` bytes, the total time
`capacity / avg` is at least the elapsed seconds. -/
theorem elapsed_le_total (bytes capacity ms : Nat) (hb : bytes ≤ capacity)
    (havg : 0 < u64 (bytes * 1000) / ms) :
    ms / 1000 ≤ capacity / (u64 (bytes * 1000) / ms) := by
  rw [Nat.le_div_iff_mul_le havg]
  have h1 : u64 (bytes * 1000) / ms * ms ≤ u64 (bytes * 1000) := Nat.div_mul_le_self _ _
  have h2 : u64 (bytes * 1000) ≤ capacity * 1000 :=
    le_trans (u64_le _) (Nat.mul_le_mul_right _ hb)
  have h3 : ms / 1000 * 1000 ≤ ms := Nat.div_mul_le_self _ _
  have h4 : u64 (bytes * 1000) / ms * (ms / 1000 * 1000) ≤ capacity * 1000 :=
    le_trans (Nat.mul_le_mul_left _ h3) (le_trans h1 h2)
  have h5 : ms / 1000 * (u64 (bytes * 1000) / ms) * 1000 ≤ capacity * 1000 := by
    calc ms / 1000 * (u64 (bytes * 1000) / ms) * 1000
        = u64 (bytes * 1000) / ms * (ms / 1000 * 1000) := by ring
      _ ≤ capacity * 1000 := h4
  exact Nat.le_of_mul_le_mul_right h5 (by norm_num)

theorem u64_sub_of_le_nat {a b : Nat} (hba : b ≤ a) : u64_sub a b = u64 (a - b) := by
  unfold u64_sub u64
  have h1 : ((a : Int) - (b : Int)) = ((a - b : Nat) : Int) := by omega
  rw [h1]
  omega

/-- C18. The ETA does not wrap below zero: for a `HandleReport` call that
updates the estimate (`progress.num` a multiple of 10, `elapsed_ms > 0`) with
a computed `avg_speed > 0`, `capacity / avg_speed ≥ elapsed_ms / 1000` in
truncating division, the call returns, and the `uint64_t` subtraction gives
`eta_seconds = capacity / avg_speed - elapsed_ms / 1000` without underflow
(reduced modulo `2^64`, which changes nothing for a capacity below `2^64`).
The bound holds whether or not `bytes_processed * 1000` overflows. -/
theorem C18_eta_no_underflow (now : timespec) (priv : SlidingWindow) (actctx : DC_ProcedureCtx)
    (h10 : actctx.progress.num % 10 = 0)
    (hms : 0 < time_elapsed_ms now priv.start_time)
    (havg : 0 < u64 (bytes_processed actctx * 1000) / time_elapsed_ms now priv.start_time) :
    time_elapsed_ms now priv.start_time / 1000
      ≤ actctx.dev.capacity /
        (u64 (bytes_processed actctx * 1000) / time_elapsed_ms now priv.start_time) ∧
    ∃ priv', HandleReport (some now) priv actctx = .ok priv' ∧
      priv'.avg_processing_speed
        = u64 (bytes_processed actctx * 1000) / time_elapsed_ms now priv.start_time ∧
      time_elapsed_ms now priv.start_time / 1000
        ≤ actctx.dev.capacity / priv'.avg_processing_speed ∧
      priv'.eta_time
        = u64 (actctx.dev.capacity / priv'.avg_processing_speed
            - time_elapsed_ms now priv.start_time / 1000) ∧
      (actctx.dev.capacity < 2 ^ 64 →
        priv'.eta_time + time_elapsed_ms now priv.start_time / 1000
          = actctx.dev.capacity / priv'.avg_processing_speed) := by
  have hle := elapsed_le_total (bytes_processed actctx) actctx.dev.capacity
    (time_elapsed_ms now priv.start_time) (bytes_processed_le_capacity actctx) havg
  have hnum1 : actctx.progress.num ≠ 1 := by
    intro h1
    rw [h1] at h10
    exact absurd h10 (by decide)
  have hse := HandleReport_speed_eta_gate_open now priv actctx hnum1 h10 hms
  rw [if_neg (Nat.pos_iff_ne_zero.mp havg)] at hse
  refine ⟨hle, _, by unfold HandleReport; rw [hse], ?_, ?_, ?_, ?_⟩
  · simp [HandleReport_enqueue_eq]
  · simpa [HandleReport_enqueue_eq] using hle
  · simp only [HandleReport_enqueue_eq]
    exact u64_sub_of_le_nat hle
  · intro hcap
    simp only [HandleReport_enqueue_eq]
    rw [u64_sub_of_le_nat hle, u64_of_lt]
    · exact Nat.sub_add_cancel hle
    · exact lt_of_le_of_lt (Nat.sub_le _ _) (lt_of_le_of_lt (Nat.div_le_self _ _) hcap)

/-- Witness of C18: the tenth report (block 7, 1,000,000-byte device, one
second after the start): 1 ≤ 279, and the ETA is 278 s. -/
theorem C18_eta_no_underflow_witness :
    (sample_ctx 10 7 0).progress.num % 10 = 0 ∧
    0 < time_elapsed_ms ⟨101, 0⟩ started_state.start_time ∧
    0 < u64 (bytes_processed (sample_ctx 10 7 0) * 1000)
      / time_elapsed_ms ⟨101, 0⟩ started_state.start_time ∧
    ∃ priv', HandleReport (some ⟨101, 0⟩) started_state (sample_ctx 10 7 0) = .ok priv' ∧
      priv'.eta_time + 1 = 279 :=
  have h := C18_eta_no_underflow ⟨101, 0⟩ started_state (sample_ctx 10 7 0)
    (by decide) (by decide) (by decide)
  ⟨by decide, by decide, by decide,
    h.2.elim fun priv' hp =>
      ⟨priv', hp.1, (hp.2.2.2.2 (by decide)).trans (by rw [hp.2.1]; decide)⟩⟩

/-! ## Lifecycle -/

/-- C15. `Close` releases every region exactly once and only after the join.
When all nine `derwin` calls of `Open` succeed and the thread starts, `Open`
returns 0 having created exactly the nine regions legend, access_time_stats,
vis, avg_speed, eta, summary, w_end_lba, w_cur_lba and w_log and destroyed
none. The trace of one `Close` call creates nothing and destroys exactly the
regions `Open` created, each creation matched by one destruction (so every
region is destroyed exactly once when the pointers are distinct, and nothing
else is destroyed), and every `delwin` in it comes after the store
`order_hangup = 1` and after `pthread_join`. -/
theorem C15_close_releases_after_join (derwin : Nat → Nat) (priv : SlidingWindow)
    (hwin : ∀ i, i < 9 → derwin i ≠ 0) :
    ∃ wins priv1 trace, Open derwin 0 priv = .ok (wins, priv1, trace, 0) ∧
      created trace = [wins.legend, wins.access_time_stats, wins.vis, wins.avg_speed,
        wins.eta, wins.summary, wins.w_end_lba, wins.w_cur_lba, wins.w_log] ∧
      created trace = (List.range 9).map derwin ∧
      destroyed trace = [] ∧
      created (Close_effects wins) = [] ∧
      destroyed (Close_effects wins) = created trace ∧
      (∀ w, (destroyed (Close_effects wins)).count w = (created trace).count w) ∧
      ((created trace).Nodup →
        ∀ w, w ∈ created trace → (destroyed (Close_effects wins)).count w = 1) ∧
      (∀ w, w ∉ created trace → (destroyed (Close_effects wins)).count w = 0) ∧
      ∀ (i : Nat) (w : Nat), (Close_effects wins)[i]? = some (Effect.delwin w) →
        ∃ j k, j < k ∧ k < i ∧
          (Close_effects wins)[j]? = some Effect.order_hangup ∧
          (Close_effects wins)[k]? = some Effect.pthread_join := by
  have h0 := hwin 0 (by omega)
  have h1 := hwin 1 (by omega)
  have h2 := hwin 2 (by omega)
  have h3 := hwin 3 (by omega)
  have h4 := hwin 4 (by omega)
  have h5 := hwin 5 (by omega)
  have h6 := hwin 6 (by omega)
  have h7 := hwin 7 (by omega)
  have h8 := hwin 8 (by omega)
  have hopen : Open derwin 0 priv = .ok
      ({ legend := derwin 0, vis := derwin 2, access_time_stats := derwin 1,
         avg_speed := derwin 3, eta := derwin 4, summary := derwin 5, w_end_lba := derwin 6,
         w_cur_lba := derwin 7, w_log := derwin 8 },
       { priv with reports := arr_set priv.reports 0 { priv.reports 0 with seqno := 1 } },
       [Effect.derwin (derwin 0), Effect.derwin (derwin 1), Effect.derwin (derwin 2),
        Effect.derwin (derwin 3), Effect.derwin (derwin 4), Effect.derwin (derwin 5),
        Effect.derwin (derwin 6), Effect.derwin (derwin 7), Effect.derwin (derwin 8),
        Effect.pthread_create], 0) := by
    unfold Open
    simp only [h0, h1, h2, h3, h4, h5, h6, h7, h8, if_false, ne_eq, not_true_eq_false]
  have h9 : List.range 9 = [0, 1, 2, 3, 4, 5, 6, 7, 8] := by decide
  refine ⟨_, _, _, hopen, rfl, by rw [h9]; rfl, rfl, rfl, rfl, fun w => rfl, ?_, ?_, ?_⟩
  · intro hnd w hw
    exact List.count_eq_one_of_mem hnd hw
  · intro w hw
    exact List.count_eq_zero_of_not_mem hw
  · intro i w hi
    rcases i with _ | _ | i
    · simp [Close_effects] at hi
    · simp [Close_effects] at hi
    · exact ⟨0, 1, by omega, by omega, rfl, rfl⟩

/-- Witness of C15: `derwin` returning the pointers 1..9. -/
theorem C15_close_releases_after_join_witness :
    (∀ i, i < 9 → derwin_fresh i ≠ 0) ∧
    ∃ wins priv1 trace, Open derwin_fresh 0 zero_state = .ok (wins, priv1, trace, 0) ∧
      created trace = [1, 2, 3, 4, 5, 6, 7, 8, 9] ∧
      destroyed (Close_effects wins) = [1, 2, 3, 4, 5, 6, 7, 8, 9] :=
  have h := C15_close_releases_after_join derwin_fresh zero_state
    (fun i _ => Nat.succ_ne_zero i)
  ⟨fun i _ => Nat.succ_ne_zero i,
    h.elim fun wins h1 => h1.elim fun priv1 h2 => h2.elim fun trace h3 =>
      ⟨wins, priv1, trace, h3.1, h3.2.2.1.trans (by decide),
        h3.2.2.2.2.2.1.trans (h3.2.2.1.trans (by decide))⟩⟩

/-! ## The pending invariant -/

theorem u64_to_int_nonneg_le {x : Nat} (h : 0 ≤ u64_to_int x) :
    (u64_to_int x).toNat ≤ x := by
  unfold u64_to_int at h ⊢
  split_ifs at h ⊢ with hlt
  · have := Nat.mod_le x (2 ^ 32)
    omega
  · have := Nat.mod_lt x (show 0 < 2 ^ 32 by norm_num)
    omega

/-- A returning `render_queued`, on counters that have not wrapped, moves
`read_seq` forward without passing `write_seq`, whatever the queue length. -/
theorem render_queued_read_le (bs_vis : Nat → bs_vis_t) (priv priv' : SlidingWindow)
    (seen : List blk_report_t)
    (hrw : priv.next_report_seqno_read ≤ priv.next_report_seqno_write)
    (hw : priv.next_report_seqno_write < 2 ^ 64)
    (h : render_queued bs_vis priv = .ok (priv', seen)) :
    priv'.next_report_seqno_write = priv.next_report_seqno_write ∧
    priv.next_report_seqno_read ≤ priv'.next_report_seqno_read ∧
    priv'.next_report_seqno_read ≤ priv'.next_report_seqno_write := by
  have hfr := render_queued_frame bs_vis priv priv' seen h
  unfold render_queued at h
  simp only at h
  split_ifs at h with hq
  simp only [render_update_stats, Except.ok.injEq, Prod.mk.injEq] at h
  have hn : (get_queue_length priv).toNat
      ≤ priv.next_report_seqno_write - priv.next_report_seqno_read := by
    unfold get_queue_length at hq ⊢
    rw [u64_sub_of_le hrw hw] at hq ⊢
    exact u64_to_int_nonneg_le hq
  obtain ⟨_, hrd, _⟩ := render_queued_while_spec bs_vis (get_queue_length priv).toNat priv
    (by omega)
  rw [h.1] at hrd
  have hwr := hfr.2.2.2.2.2.2
  refine ⟨hwr, by omega, by omega⟩

/-- Along any returning schedule on counters that stay below `2^64`:
`write_seq` counts the enqueued reports, `read_seq` never passes it, and
guarded `HandleReport` calls keep the distance within `N`. -/
theorem exec_pending_inv (bs_vis : Nat → bs_vis_t) :
    ∀ (steps : List Step) (priv priv' : SlidingWindow) (seen : List blk_report_t),
      priv.next_report_seqno_read ≤ priv.next_report_seqno_write →
      priv.next_report_seqno_write + (enqueued steps).length < 2 ^ 64 →
      exec bs_vis steps priv = .ok (priv', seen) →
      priv'.next_report_seqno_write
        = priv.next_report_seqno_write + (enqueued steps).length ∧
      priv'.next_report_seqno_read ≤ priv'.next_report_seqno_write ∧
      (reports_guarded bs_vis steps priv = true →
        priv.next_report_seqno_write - priv.next_report_seqno_read ≤ REPORTS_LEN →
        priv'.next_report_seqno_write - priv'.next_report_seqno_read ≤ REPORTS_LEN) := by
  intro steps
  induction steps with
  | nil =>
    intro priv priv' seen hrw _ hexec
    simp only [exec, Except.ok.injEq, Prod.mk.injEq] at hexec
    obtain ⟨rfl, rfl⟩ := hexec
    exact ⟨by simp [enqueued], hrw, fun _ h => h⟩
  | cons st rest ih =>
    intro priv priv' seen hrw hlen hexec
    cases st with
    | handle_report clk actctx =>
      simp only [exec, exec_step] at hexec
      simp only [enqueued, List.length_cons] at hlen ⊢
      cases hH : HandleReport clk priv actctx with
      | error e => rw [hH] at hexec; simp at hexec
      | ok p1 =>
        rw [hH] at hexec
        simp only at hexec
        obtain ⟨st', avg, eta, hshape⟩ := HandleReport_ok_shape clk priv actctx p1 hH
        have hw1 : u64 (priv.next_report_seqno_write + 1) = priv.next_report_seqno_write + 1 :=
          u64_of_lt (by omega)
        have hwp : p1.next_report_seqno_write = priv.next_report_seqno_write + 1 := by
          rw [hshape]; exact hw1
        have hrp : p1.next_report_seqno_read = priv.next_report_seqno_read := by
          rw [hshape]
        cases hE : exec bs_vis rest p1 with
        | error e => rw [hE] at hexec; simp at hexec
        | ok res =>
          obtain ⟨p2, seen2⟩ := res
          rw [hE] at hexec
          simp only [Except.ok.injEq, Prod.mk.injEq] at hexec
          obtain ⟨rfl, _⟩ := hexec
          obtain ⟨g1, g2, g3⟩ := ih p1 p2 seen2 (by omega) (by omega) hE
          refine ⟨by omega, g2, ?_⟩
          intro hg hN
          simp only [reports_guarded, exec_step, hH, Bool.and_eq_true, decide_eq_true_eq] at hg
          have hp := hg.1
          rw [pending_of_le priv hrw (by omega)] at hp
          exact g3 hg.2 (by omega)
    | render_queued =>
      simp only [exec, exec_step] at hexec
      simp only [enqueued] at hlen ⊢
      cases hR : render_queued bs_vis priv with
      | error e => rw [hR] at hexec; simp at hexec
      | ok res1 =>
        obtain ⟨p1, seen1⟩ := res1
        rw [hR] at hexec
        simp only at hexec
        obtain ⟨hwp, hrp, hrw1⟩ := render_queued_read_le bs_vis priv p1 seen1 hrw (by omega) hR
        cases hE : exec bs_vis rest p1 with
        | error e => rw [hE] at hexec; simp at hexec
        | ok res =>
          obtain ⟨p2, seen2⟩ := res
          rw [hE] at hexec
          simp only [Except.ok.injEq, Prod.mk.injEq] at hexec
          obtain ⟨rfl, _⟩ := hexec
          obtain ⟨g1, g2, g3⟩ := ih p1 p2 seen2 hrw1 (by omega) hE
          refine ⟨by omega, g2, ?_⟩
          intro hg hN
          simp only [reports_guarded, exec_step, hR, Bool.true_and] at hg
          exact g3 hg (by omega)

/-- C17. Pending invariant: in every state reached from `write_seq =
read_seq = 0` by a schedule of returning `HandleReport` and `render_queued`
calls (fewer than `2^64` reports, so that the counters do not wrap),
`read_seq ≤ write_seq`, with `write_seq` the number of enqueued reports; and
if every `HandleReport` call of the schedule is made in a state with
`pending < N`, then `pending ≤ N = 100000` in the reached state. Every state
met along a schedule is the end state of a prefix, so this covers all of
them. -/
theorem C17_pending_invariant (bs_vis : Nat → bs_vis_t) (steps : List Step)
    (priv0 priv' : SlidingWindow) (seen : List blk_report_t)
    (hw0 : priv0.next_report_seqno_write = 0) (hr0 : priv0.next_report_seqno_read = 0)
    (hcount : (enqueued steps).length < 2 ^ 64)
    (hexec : exec bs_vis steps priv0 = .ok (priv', seen)) :
    priv'.next_report_seqno_read ≤ priv'.next_report_seqno_write ∧
    priv'.next_report_seqno_write = (enqueued steps).length ∧
    pending priv' = priv'.next_report_seqno_write - priv'.next_report_seqno_read ∧
    (reports_guarded bs_vis steps priv0 = true → pending priv' ≤ REPORTS_LEN) := by
  obtain ⟨g1, g2, g3⟩ := exec_pending_inv bs_vis steps priv0 priv' seen (by omega)
    (by omega) hexec
  rw [hw0, Nat.zero_add] at g1
  have hp := pending_of_le priv' g2 (by omega)
  refine ⟨g2, g1, hp, fun hg => ?_⟩
  rw [hp]
  exact g3 hg (by omega)

/-- Witness of C17: after two reports, a drain and a third report, one entry
is pending. -/
theorem C17_pending_invariant_witness :
    reports_guarded bs_vis_default unread_schedule zero_state = true ∧
    ∃ priv' seen, exec bs_vis_default unread_schedule zero_state = .ok (priv', seen) ∧
      priv'.next_report_seqno_read ≤ priv'.next_report_seqno_write ∧
      pending priv' ≤ REPORTS_LEN :=
  ⟨by decide, _, _, rfl,
    (C17_pending_invariant bs_vis_default unread_schedule zero_state _ _ rfl rfl (by decide)
      rfl).1,
    (C17_pending_invariant bs_vis_default unread_schedule zero_state _ _ rfl rfl (by decide)
      rfl).2.2.2 (by decide)⟩

/-! ## Overflow: loss and duplicates -/

theorem enqueued_handle_report_calls (calls : List (Option timespec × DC_ProcedureCtx)) :
    enqueued (handle_report_calls calls) = calls.map (fun c => c.2.report) := by
  induction calls with
  | nil => rfl
  | cons c rest ih =>
    simp only [handle_report_calls, List.map_cons, enqueued] at ih ⊢
    rw [ih]

/-- A returning `HandleReport` on counters below `2^64` keeps the most recent
`N` reports in their slots. -/
theorem recent_inv_HandleReport (clk : Option timespec) (priv priv' : SlidingWindow)
    (actctx : DC_ProcedureCtx) (L : List DC_BlockReport) (hinv : recent_inv priv L)
    (h : HandleReport clk priv actctx = .ok priv') (hlen : L.length + 1 < 2 ^ 64) :
    recent_inv priv' (L ++ [actctx.report]) ∧
    priv'.next_report_seqno_read = priv.next_report_seqno_read ∧
    (∀ c, stat_counter priv' c = stat_counter priv c) := by
  obtain ⟨hw, _, hslots⟩ := hinv
  obtain ⟨st, avg, eta, rfl⟩ := HandleReport_ok_shape clk priv actctx priv' h
  have hw1 : u64 (priv.next_report_seqno_write + 1) = priv.next_report_seqno_write + 1 :=
    u64_of_lt (by omega)
  refine ⟨⟨?_, by simpa using hlen, ?_⟩, rfl, fun c => rfl⟩
  · show u64 (priv.next_report_seqno_write + 1) = _
    rw [hw1, hw]
    simp
  · intro j r hjr hrecent
    simp only [List.length_append, List.length_singleton] at hrecent
    simp only [arr_set]
    by_cases hjL : j < L.length
    · rw [List.getElem?_append_left hjL] at hjr
      have hne : j % REPORTS_LEN ≠ priv.next_report_seqno_write % REPORTS_LEN :=
        mod_len_ne (by omega) (by omega)
      rw [if_neg hne]
      exact hslots j r hjr (by omega)
    · rw [List.getElem?_append_right (by omega)] at hjr
      have hj0 : j = L.length := by
        by_contra hne
        have : j - L.length ≠ 0 := by omega
        obtain ⟨m, hm⟩ := Nat.exists_eq_succ_of_ne_zero this
        rw [hm] at hjr
        simp at hjr
      subst hj0
      simp only [Nat.sub_self, List.getElem?_cons_zero, Option.some.injEq] at hjr
      subst hjr
      rw [hw, if_pos rfl]

/-- A run of `HandleReport` calls with no drain in between keeps the most
recent `N` reports in their slots, leaves `read_seq` and the counters alone,
and hands nothing to `render_update_vis`. -/
theorem exec_calls_recent (bs_vis : Nat → bs_vis_t) :
    ∀ (calls : List (Option timespec × DC_ProcedureCtx)) (priv p1 : SlidingWindow)
      (L : List DC_BlockReport) (s1 : List blk_report_t),
      recent_inv priv L → L.length + calls.length < 2 ^ 64 →
      exec bs_vis (handle_report_calls calls) priv = .ok (p1, s1) →
      recent_inv p1 (L ++ enqueued (handle_report_calls calls)) ∧
      p1.next_report_seqno_read = priv.next_report_seqno_read ∧
      s1 = [] ∧
      (∀ c, stat_counter p1 c = stat_counter priv c) := by
  intro calls
  induction calls with
  | nil =>
    intro priv p1 L s1 hinv _ hexec
    simp only [handle_report_calls, List.map_nil, exec, Except.ok.injEq, Prod.mk.injEq] at hexec
    obtain ⟨rfl, rfl⟩ := hexec
    exact ⟨by simpa [handle_report_calls, enqueued] using hinv, rfl, rfl, fun _ => rfl⟩
  | cons c rest ih =>
    intro priv p1 L s1 hinv hlen hexec
    simp only [List.length_cons] at hlen
    simp only [handle_report_calls, List.map_cons, exec, exec_step] at hexec
    cases hH : HandleReport c.1 priv c.2 with
    | error e => rw [hH] at hexec; simp at hexec
    | ok q =>
      rw [hH] at hexec
      simp only at hexec
      obtain ⟨hq, hqr, hqc⟩ := recent_inv_HandleReport c.1 priv q c.2 L hinv hH (by omega)
      cases hE : exec bs_vis (List.map (fun c => Step.handle_report c.1 c.2) rest) q with
      | error e => rw [hE] at hexec; simp at hexec
      | ok res =>
        obtain ⟨q2, t2⟩ := res
        rw [hE] at hexec
        simp only [Except.ok.injEq, Prod.mk.injEq, List.nil_append] at hexec
        obtain ⟨rfl, rfl⟩ := hexec
        obtain ⟨g1, g2, g3, g4⟩ := ih q q2 (L ++ [c.2.report]) t2 hq
          (by simp only [List.length_append, List.length_singleton]; omega) hE
        refine ⟨?_, g2.trans hqr, g3, fun c' => (g4 c').trans (hqc c')⟩
        simpa [handle_report_calls, enqueued] using g1

/-- Number of entries with a given sequence number in a tail of a stamped
list: one if the number lies in the tail, none otherwise. -/
theorem countP_seqno_stamp_drop (j : Nat) :
    ∀ (L : List DC_BlockReport) (a n : Nat),
      ((stamp_from a L).drop n).countP (fun e => decide (e.seqno = j))
        = if a + n ≤ j ∧ j < a + L.length then 1 else 0 := by
  intro L
  induction L with
  | nil =>
    intro a n
    simp only [stamp_from, List.drop_nil, List.countP_nil, List.length_nil]
    rw [if_neg (by omega)]
  | cons r rest ih =>
    intro a n
    cases n with
    | zero =>
      have h0 := ih (a + 1) 0
      simp only [List.drop_zero] at h0
      simp only [stamp_from, List.drop_zero, List.countP_cons, h0, decide_eq_true_eq,
        List.length_cons]
      split_ifs <;> omega
    | succ m =>
      simp only [stamp_from, List.drop_succ_cons, List.length_cons]
      rw [ih (a + 1) m]
      split_ifs <;> omega

theorem stat_class_le (bs_vis : Nat → bs_vis_t) (r : DC_BlockReport) :
    stat_class bs_vis r ≤ 10 := by
  have hb := latency_bucket_le bs_vis r.blk_access_time
  have hlt := r.blk_status.isLt
  unfold stat_class
  split_ifs <;> omega

/-- Every handed entry is counted in exactly one of the eleven classes. -/
theorem classes_count_total (bs_vis : Nat → bs_vis_t) (seen : List blk_report_t) :
    (classes bs_vis seen).count 0 + (classes bs_vis seen).count 1 +
      (classes bs_vis seen).count 2 + (classes bs_vis seen).count 3 +
      (classes bs_vis seen).count 4 + (classes bs_vis seen).count 5 +
      (classes bs_vis seen).count 6 + (classes bs_vis seen).count 7 +
      (classes bs_vis seen).count 8 + (classes bs_vis seen).count 9 +
      (classes bs_vis seen).count 10 = seen.length := by
  induction seen with
  | nil => rfl
  | cons e rest ih =>
    simp only [classes, List.map_cons, List.count_cons, beq_iff_eq, List.length_cons] at ih ⊢
    rw [← ih]
    have hle := stat_class_le bs_vis e.report
    generalize stat_class bs_vis e.report = x at hle
    interval_cases x <;> simp <;> omega
/-- Calls that all return (for the start time `st`, which a first report
re-stores) make a schedule that returns. -/
theorem exec_calls_ok (bs_vis : Nat → bs_vis_t) :
    ∀ (calls : List (Option timespec × DC_ProcedureCtx)) (priv : SlidingWindow)
      (st : timespec), priv.start_time = st →
      (∀ c ∈ calls, HandleReport_returns c.1 st c.2 = true ∧
        (c.2.progress.num = 1 → c.1 = some st)) →
      ∃ p s, exec bs_vis (handle_report_calls calls) priv = .ok (p, s) := by
  intro calls
  induction calls with
  | nil => intro priv st _ _; exact ⟨priv, [], rfl⟩
  | cons c rest ih =>
    intro priv st hst hall
    obtain ⟨hret, hfirst⟩ := hall c (List.mem_cons_self _ _)
    obtain ⟨p1, hH⟩ := (HandleReport_ok_iff c.1 priv c.2).mpr (by rw [hst]; exact hret)
    have hst1 : p1.start_time = st := by
      rw [HandleReport_start_time c.1 priv p1 c.2 hH]
      split_ifs with h1
      · rw [hfirst h1]; rfl
      · exact hst
    obtain ⟨p2, s2, hp2⟩ := ih p1 st hst1 (fun c' hc' => hall c' (List.mem_cons_of_mem _ hc'))
    have hstep : exec_step bs_vis priv (Step.handle_report c.1 c.2) = .ok (p1, []) := by
      simp only [exec_step, hH]
    exact ⟨p2, [] ++ s2, exec_cons_ok bs_vis _ _ priv p1 p2 [] s2 hstep hp2⟩

theorem recent_inv_init (priv : SlidingWindow) (hw0 : priv.next_report_seqno_write = 0) :
    recent_inv priv [] := by
  refine ⟨by simpa using hw0, by simp, ?_⟩
  intro j r hjr _
  simp at hjr

/-- C19. Overflow produces duplicates as well as loss. From an empty buffer
(`write_seq = read_seq = 0`), let `N + k` `HandleReport` calls return with no
drain in between (`1 ≤ k ≤ N = 100000`), the counters being far enough from
`2^64` not to wrap. Then one `render_queued` returns, hands `N + k` entries to
`render_update_vis` and ends with `read_seq = write_seq = N + k`. The handed
entries are the `k` newest stamped reports followed by all but the `k` oldest:
no entry with `seqno < k` is handed over, each `seqno` in `k .. N-1` once,
each `seqno` in `N .. N+k-1` twice; and the sum of all histogram and error
counters grows by `N + k`. -/
theorem C19_overflow_duplicates (bs_vis : Nat → bs_vis_t)
    (calls : List (Option timespec × DC_ProcedureCtx)) (k : Nat)
    (priv0 p1 : SlidingWindow) (s1 : List blk_report_t)
    (hk1 : 1 ≤ k) (hkN : k ≤ REPORTS_LEN) (hlen : calls.length = REPORTS_LEN + k)
    (hw0 : priv0.next_report_seqno_write = 0) (hr0 : priv0.next_report_seqno_read = 0)
    (hnowrap : ∀ c, stat_counter priv0 c + (REPORTS_LEN + k) < 2 ^ 64)
    (hexec : exec bs_vis (handle_report_calls calls) priv0 = .ok (p1, s1)) :
    s1 = [] ∧ p1.next_report_seqno_write = REPORTS_LEN + k ∧ p1.next_report_seqno_read = 0 ∧
    ∃ p2 seen, render_queued bs_vis p1 = .ok (p2, seen) ∧
      seen.length = REPORTS_LEN + k ∧
      p2.next_report_seqno_read = REPORTS_LEN + k ∧
      p2.next_report_seqno_read = p2.next_report_seqno_write ∧
      seen = (stamp_from 0 (enqueued (handle_report_calls calls))).drop REPORTS_LEN
        ++ (stamp_from 0 (enqueued (handle_report_calls calls))).drop k ∧
      (∀ j, j < k → seen.countP (fun e => decide (e.seqno = j)) = 0) ∧
      (∀ j, k ≤ j → j < REPORTS_LEN → seen.countP (fun e => decide (e.seqno = j)) = 1) ∧
      (∀ j, REPORTS_LEN ≤ j → j < REPORTS_LEN + k →
        seen.countP (fun e => decide (e.seqno = j)) = 2) ∧
      stats_total p2 = stats_total priv0 + (REPORTS_LEN + k) := by
  have hN : REPORTS_LEN = 100000 := by decide
  obtain ⟨hrec, hrd1, hs1, hc1⟩ := exec_calls_recent bs_vis calls priv0 p1 [] s1
    (recent_inv_init priv0 hw0) (by simp only [List.length_nil]; omega) hexec
  simp only [List.nil_append] at hrec
  generalize hL : enqueued (handle_report_calls calls) = L at hrec ⊢
  have hLlen : L.length = REPORTS_LEN + k := by
    rw [← hL, enqueued_handle_report_calls, List.length_map, hlen]
  obtain ⟨hw1, _, hslots⟩ := hrec
  have hw1' : p1.next_report_seqno_write = REPORTS_LEN + k := hw1.trans hLlen
  have hr1 : p1.next_report_seqno_read = 0 := hrd1.trans hr0
  refine ⟨hs1, hw1', hr1, ?_⟩
  obtain ⟨p2, seen, hR, hfr, hrd2, hseen, hcnt⟩ := render_queued_ok bs_vis p1
    (by omega) (by omega) (by omega)
  have hq : p1.next_report_seqno_write - p1.next_report_seqno_read = REPORTS_LEN + k := by
    omega
  have hSlen : (stamp_from 0 L).length = REPORTS_LEN + k := by
    rw [stamp_from_length, hLlen]
  have hform : seen = (stamp_from 0 L).drop REPORTS_LEN ++ (stamp_from 0 L).drop k := by
    rw [hseen, hq, hr1]
    apply List.ext_getElem?
    intro i
    rw [List.getElem?_map]
    by_cases hi : i < REPORTS_LEN + k
    · rw [List.getElem?_range hi]
      simp only [Option.map_some', Nat.zero_add]
      by_cases hik : i < k
      · rw [List.getElem?_append_left (by rw [List.length_drop, hSlen]; omega),
          List.getElem?_drop, stamp_from_getElem?]
        have hjL : REPORTS_LEN + i < L.length := by omega
        rw [List.getElem?_eq_getElem hjL]
        simp only [Option.map_some', Nat.zero_add]
        congr 1
        have := hslots (REPORTS_LEN + i) _ (List.getElem?_eq_getElem hjL) (by omega)
        rw [Nat.add_mod_left] at this
        exact this
      · have hlenA : ((stamp_from 0 L).drop REPORTS_LEN).length = k := by
          rw [List.length_drop, hSlen]; omega
        rw [List.getElem?_append_right (by rw [hlenA]; omega), hlenA, List.getElem?_drop,
          stamp_from_getElem?]
        have hki : k + (i - k) = i := by omega
        rw [hki]
        have hiL : i < L.length := by omega
        rw [List.getElem?_eq_getElem hiL]
        simp only [Option.map_some', Nat.zero_add]
        congr 1
        exact hslots i _ (List.getElem?_eq_getElem hiL) (by omega)
    · have h1 : (List.range (REPORTS_LEN + k))[i]? = none :=
        List.getElem?_eq_none (by simpa using Nat.le_of_not_lt hi)
      rw [h1]
      symm
      apply List.getElem?_eq_none
      simp only [List.length_append, List.length_drop, hSlen]
      omega
  have hcount : ∀ j, seen.countP (fun e => decide (e.seqno = j))
      = (if REPORTS_LEN ≤ j ∧ j < REPORTS_LEN + k then 1 else 0)
        + (if k ≤ j ∧ j < REPORTS_LEN + k then 1 else 0) := by
    intro j
    rw [hform, List.countP_append, countP_seqno_stamp_drop, countP_seqno_stamp_drop, hLlen]
    simp only [Nat.zero_add]
  have hlenS : seen.length = REPORTS_LEN + k := by
    rw [hform, List.length_append, List.length_drop, List.length_drop, hSlen]
    omega
  have hstat : ∀ c, stat_counter p2 c
      = stat_counter priv0 c + (classes bs_vis seen).count c := by
    intro c
    have hlt := hnowrap c
    have hcl : (classes bs_vis seen).length = REPORTS_LEN + k := by
      unfold classes
      rw [List.length_map, hlenS]
    have hle : (classes bs_vis seen).count c ≤ REPORTS_LEN + k :=
      hcl ▸ List.count_le_length c (classes bs_vis seen)
    have hk0 : ∀ c', stat_counter p1 c' = u64 (stat_counter p1 c') := by
      intro c'
      have := hnowrap c'
      rw [hc1 c']
      exact (u64_of_lt (by omega)).symm
    have h2 : stat_counter p2 c
        = u64 (stat_counter p1 c + (classes bs_vis seen).count c) :=
      hcnt (fun c' => stat_counter p1 c') hk0 c
    rw [h2, hc1 c]
    exact u64_of_lt (by omega)
  refine ⟨p2, seen, hR, hlenS, by rw [hrd2, hw1'], by rw [hrd2]; exact hfr.2.2.2.2.2.2.symm,
    hform, ?_, ?_, ?_, ?_⟩
  · intro j hj
    rw [hcount j, if_neg (by omega), if_neg (by omega)]
  · intro j hkj hjN
    rw [hcount j, if_neg (by omega), if_pos (by omega)]
  · intro j hNj hj
    rw [hcount j, if_pos (by omega), if_pos (by omega)]
  · have htot := classes_count_total bs_vis seen
    have e0 : p2.access_time_stats_accum 0
        = priv0.access_time_stats_accum 0 + (classes bs_vis seen).count 0 := hstat 0
    have e1 : p2.access_time_stats_accum 1
        = priv0.access_time_stats_accum 1 + (classes bs_vis seen).count 1 := hstat 1
    have e2 : p2.access_time_stats_accum 2
        = priv0.access_time_stats_accum 2 + (classes bs_vis seen).count 2 := hstat 2
    have e3 : p2.access_time_stats_accum 3
        = priv0.access_time_stats_accum 3 + (classes bs_vis seen).count 3 := hstat 3
    have e4 : p2.access_time_stats_accum 4
        = priv0.access_time_stats_accum 4 + (classes bs_vis seen).count 4 := hstat 4
    have e5 : p2.access_time_stats_accum 5
        = priv0.access_time_stats_accum 5 + (classes bs_vis seen).count 5 := hstat 5
    have e6 : p2.error_stats_accum 1
        = priv0.error_stats_accum 1 + (classes bs_vis seen).count 6 := hstat 6
    have e7 : p2.error_stats_accum 2
        = priv0.error_stats_accum 2 + (classes bs_vis seen).count 7 := hstat 7
    have e8 : p2.error_stats_accum 3
        = priv0.error_stats_accum 3 + (classes bs_vis seen).count 8 := hstat 8
    have e9 : p2.error_stats_accum 4
        = priv0.error_stats_accum 4 + (classes bs_vis seen).count 9 := hstat 9
    have e10 : p2.error_stats_accum 5
        = priv0.error_stats_accum 5 + (classes bs_vis seen).count 10 := hstat 10
    simp only [stats_total, access_time_stats_total]
    omega
/-- Witness of C19: `N + 1` reports into the empty queue of the zero state,
then one drain: 100001 entries are handed over, none with `seqno = 0`, the
one with `seqno = 100000` twice, and the counters add up to 100001. -/
theorem C19_overflow_duplicates_witness :
    (overflow_calls 1).length = REPORTS_LEN + 1 ∧
    ∃ p1 s1 p2 seen,
      exec bs_vis_default (handle_report_calls (overflow_calls 1)) zero_state = .ok (p1, s1) ∧
      render_queued bs_vis_default p1 = .ok (p2, seen) ∧
      seen.length = REPORTS_LEN + 1 ∧
      seen.countP (fun e => decide (e.seqno = 0)) = 0 ∧
      seen.countP (fun e => decide (e.seqno = 100000)) = 2 ∧
      stats_total p2 = stats_total zero_state + (REPORTS_LEN + 1) := by
  have hlen : (overflow_calls 1).length = REPORTS_LEN + 1 := by
    simp [overflow_calls]
  have hret : ∀ c ∈ overflow_calls 1, HandleReport_returns c.1 ⟨0, 0⟩ c.2 = true ∧
      (c.2.progress.num = 1 → c.1 = some ⟨0, 0⟩) := by
    intro c hc
    simp only [overflow_calls, List.mem_map] at hc
    obtain ⟨i, _, rfl⟩ := hc
    exact ⟨rfl, fun h => absurd (show (7 : Nat) = 1 from h) (by decide)⟩
  have hnowrap : ∀ c, stat_counter zero_state c + (REPORTS_LEN + 1) < 2 ^ 64 := by
    intro c
    have h0 : stat_counter zero_state c = 0 := by
      unfold stat_counter
      split_ifs <;> rfl
    rw [h0]
    decide
  obtain ⟨p1, s1, hexec⟩ := exec_calls_ok bs_vis_default (overflow_calls 1) zero_state
    ⟨0, 0⟩ rfl hret
  obtain ⟨_, _, _, p2, seen, hR, hl, _, _, _, h0, _, h2, htot⟩ :=
    C19_overflow_duplicates bs_vis_default (overflow_calls 1) 1 zero_state p1 s1
      (by decide) (by decide) hlen rfl rfl hnowrap hexec
  exact ⟨hlen, p1, s1, p2, seen, hexec, hR, hl, h0 0 (by decide),
    h2 100000 (by decide) (by decide), htot⟩

end Whdd
